import Mathlib

/-!
# Heal listing of the XL object layer (`cmd/xl-v1-list-objects-heal.go`)

A shallow embedding of `listDirHealFactory`, `xlObjects.listObjectsHeal` and
`xlObjects.ListObjectsHeal`, followed by the properties established about them.

Conventions of the embedding:

* Go `string` is `String`; Go compares strings byte-wise, which on UTF-8 text is
  the lexicographic order of the code points, `a.data ≤ b.data`; it is the order
  `≤` of `String` (`String.le_iff_toList_le`).
* Go slices are `List`s; a nil slice and an empty slice are both `[]`.
* Go `error` values are `Option GoError` (`none` is `nil`); a `(value, error)`
  result of a callee is an `Except GoError value`.
* A nil `StorageAPI` interface value is `none`.
* A receive-only channel is the list of values it will still deliver before it
  is closed; receiving from `[]` is receiving from a closed channel.
* Functions of the package that are not defined in this source file
  (`pathJoin`, `getObjectInfo`, `startTreeWalk`, ...) are parameters.
-/

namespace Minio

/-! ## Strings and the `sort` package -/

/-- The constant `slashSeparator`. -/
def slashSeparator : String := "/"

/-- Go `strings.HasPrefix(s, p)`, the test behind the package helper `hasPrefix`. -/
def hasPrefix (s p : String) : Bool := p.data.isPrefixOf s.data

/-- Go `strings.HasSuffix(s, suffix)`, the test behind the package helper `hasSuffix`. -/
def hasSuffix (s suffix : String) : Bool := suffix.data.isSuffixOf s.data

/-- Go `strings.TrimSuffix(s, suffix)`: `s` without the trailing `suffix`, removed
once; `s` itself when it does not end in `suffix`. -/
def trimSuffix (s suffix : String) : String :=
  if hasSuffix s suffix then ⟨s.data.take (s.data.length - suffix.data.length)⟩ else s

/-- Go `a <= b` on strings: lexicographic on the characters. -/
abbrev leStr : String → String → Prop := fun x y => x.data ≤ y.data

/-- Go `sort.Strings`: the slice sorted in increasing order.  Equal strings are
indistinguishable, so every sorting algorithm gives the same list. -/
def sortStrings (a : List String) : List String :=
  a.insertionSort leStr

/-- The loop of Go `sort.Search`: `for i < j { h := int(uint(i+j) >> 1);
if !f(h) { i = h + 1 } else { j = h } }; return i`.  The first argument bounds
the number of iterations. -/
def searchLoop (f : Nat → Bool) : Nat → Nat → Nat → Nat
  | 0, i, _ => i
  | fuel + 1, i, j =>
    if i < j then
      let h := (i + j) / 2
      if !f h then searchLoop f fuel (h + 1) j else searchLoop f fuel i h
    else i

/-- Go `sort.Search(n, f)`; `j - i` starts at `n` and shrinks in every iteration,
so `n` iterations are enough. -/
def search (n : Nat) (f : Nat → Bool) : Nat := searchLoop f n 0 n

/-- Go `sort.SearchStrings(a, x)`, that is
`sort.Search(len(a), func(i int) bool { return a[i] >= x })`. -/
def searchStrings (a : List String) (x : String) : Nat :=
  search a.length (fun i => decide (x.data ≤ (a.getD i "").data))

/-! ## Errors and disks -/

/-- Go `error` values: the sentinel `errFileNotFound`, and any other error,
told apart by a number. -/
inductive GoError where
  | errFileNotFound
  | other (id : Nat)
  deriving DecidableEq, Repr

/-- The part of the `StorageAPI` interface used here: `ListDir(volume, dirPath)`. -/
structure StorageAPI where
  ListDir : String → String → Except GoError (List String)

/-- Modelled from the spec: `filterMatchingPrefix` is not defined in this source
file; the spec has it "filter to those whose name begins with `prefixEntry`". -/
def filterMatchingPrefix (entries : List String) (prefixEntry : String) : List String :=
  entries.filter (fun entry => hasPrefix entry prefixEntry)

/-! ## `listDirHealFactory` -/

/-- Lines 37-51 of the `listDir` closure: what one disk's successful listing
becomes before it is merged (sort, keep the names with prefix `prefixEntry`,
drop the trailing slash of leaves, sort again). -/
def processEntries (pathJoin : String → String → String) (isLeaf : String → String → Bool)
    (bucket prefixDir prefixEntry : String) (entries : List String) : List String :=
  let entries := sortStrings entries
  let entries := filterMatchingPrefix entries prefixEntry
  let entries := entries.map fun entry =>
    if isLeaf bucket (pathJoin prefixDir entry) then trimSuffix entry slashSeparator else entry
  sortStrings entries

/-- Lines 59-67: the entries of a later disk that are appended to `mergedEntries`. -/
def newEntriesOf (mergedEntries entries : List String) : List String :=
  entries.filter fun entry => !decide (searchStrings mergedEntries entry < mergedEntries.length)

/-- One iteration of `for _, disk := range disks` (lines 27-73) on the running
value of `mergedEntries`. -/
def listDirStep (pathJoin : String → String → String) (isLeaf : String → String → Bool)
    (bucket prefixDir prefixEntry : String)
    (mergedEntries : List String) (disk : Option StorageAPI) : List String :=
  match disk with
  | none => mergedEntries
  | some disk =>
    match disk.ListDir bucket prefixDir with
    | .error _ => mergedEntries
    | .ok entries =>
      let entries := processEntries pathJoin isLeaf bucket prefixDir prefixEntry entries
      if mergedEntries.length = 0 then
        sortStrings entries
      else
        let newEntries := newEntriesOf mergedEntries entries
        if newEntries.length > 0 then sortStrings (mergedEntries ++ newEntries)
        else mergedEntries

/-- The closure `listDir` returned by `listDirHealFactory(isLeaf, disks...)`,
applied to `bucket, prefixDir, prefixEntry`; it returns
`(mergedEntries, delayIsLeaf, err)`. -/
def listDirHealFactory (pathJoin : String → String → String) (isLeaf : String → String → Bool)
    (disks : List (Option StorageAPI)) (bucket prefixDir prefixEntry : String) :
    List String × Bool × Option GoError :=
  (disks.foldl (listDirStep pathJoin isLeaf bucket prefixDir prefixEntry) [], false, none)

/-- A disk whose `ListDir` returns `names` for every directory. -/
def diskListing (names : List String) : Option StorageAPI :=
  some ⟨fun _ _ => .ok names⟩

/-- A disk whose `ListDir` fails. -/
def diskFailing : Option StorageAPI :=
  some ⟨fun _ _ => .error (.other 1)⟩

/-- A `pathJoin` for examples: the two parts joined by a slash. -/
def joinWithSlash (a b : String) : String := a ++ "/" ++ b

/-! ## Vocabulary of the merge properties -/

/-- A disk is reachable for a listing of `prefixDir` when it is not nil and its
`ListDir` returns no error. -/
def reachable (bucket prefixDir : String) (disk : Option StorageAPI) : Bool :=
  match disk with
  | none => false
  | some d =>
    match d.ListDir bucket prefixDir with
    | .ok _ => true
    | .error _ => false

/-- The processed list of a reachable disk: what `processEntries` makes of its
`ListDir` result; `none` for a disk that is nil or whose `ListDir` fails. -/
def processedList (pathJoin : String → String → String) (isLeaf : String → String → Bool)
    (bucket prefixDir prefixEntry : String) (disk : Option StorageAPI) :
    Option (List String) :=
  match disk with
  | none => none
  | some d =>
    match d.ListDir bucket prefixDir with
    | .ok entries => some (processEntries pathJoin isLeaf bucket prefixDir prefixEntry entries)
    | .error _ => none

/-- The name without its last character when that character is a slash: one
trailing slash removed, in the words of the description of the merge. -/
def dropOneTrailingSlash (name : String) : String :=
  match name.data.reverse with
  | '/' :: rest => ⟨rest.reverse⟩
  | _ => name

/-- The listing of a single disk as the description of the merge has it: the
names beginning with `prefixEntry`, one trailing slash removed from each leaf,
sorted ascending. -/
def singleDiskListing (pathJoin : String → String → String)
    (isLeaf : String → String → Bool) (bucket prefixDir prefixEntry : String)
    (entries : List String) : List String :=
  sortStrings ((entries.filter fun name => hasPrefix name prefixEntry).map fun name =>
    if isLeaf bucket (pathJoin prefixDir name) then dropOneTrailingSlash name else name)

/-! ## Types of the object layer -/

/-- Modelled from the spec: the type `HealObjectInfo` is declared in another
file; the spec's HealStatus is `{objectHealthy, disksMissing, disksCorrupt,
quorumAvailable}`. -/
structure HealObjectInfo where
  objectHealthy : Bool
  disksMissing : Nat
  disksCorrupt : Nat
  quorumAvailable : Bool
  deriving DecidableEq, Repr

/-- Modelled from the spec: the type `xlMetaV1` is declared in another file;
the spec's per-disk ObjectMetadata has a modification time and a size.  This
file only passes such values from `readAllXLMetadata` to `xlShouldHeal` and
`xlHealStat`. -/
structure xlMetaV1 where
  ModTime : Int
  Size : Int
  deriving DecidableEq, Repr

/-- The fields of `ObjectInfo` that this file reads or writes; the zero value is
the default. -/
structure ObjectInfo where
  Bucket : String := ""
  Name : String := ""
  ModTime : Int := 0
  Size : Int := 0
  IsDir : Bool := false
  HealObjectInfo : Option HealObjectInfo := none
  deriving DecidableEq, Repr

/-- The fields of `ListObjectsInfo` that this file writes; `{}` is the zero value
`ListObjectsInfo{}`. -/
structure ListObjectsInfo where
  IsTruncated : Bool := false
  NextMarker : String := ""
  Objects : List ObjectInfo := []
  Prefixes : List String := []
  deriving DecidableEq, Repr

/-- The struct `treeWalkResult{entry, err, end}` sent on a walk's result channel
(`end` is a reserved word, hence `end_`). -/
structure treeWalkResult where
  entry : String
  err : Option GoError := none
  end_ : Bool := false
  deriving DecidableEq, Repr

/-- The struct `listParams{bucket, recursive, marker, prefix, heal}`, the key of
the walk pool (`prefix_` for the field `prefix`). -/
structure listParams where
  bucket : String
  recursive : Bool
  marker : String
  prefix_ : String
  heal : Bool
  deriving DecidableEq, Repr

/-- A parked tree walk: the results its channel `resultCh` has yet to deliver,
and the identity of its `endWalkCh`. -/
structure treeWalk where
  resultCh : List treeWalkResult
  endWalkCh : Nat
  deriving DecidableEq, Repr

/-- The walk pool `xl.listPool`: the parked walks with their keys. -/
abbrev treeWalkPool := List (listParams × treeWalk)

/-- Modelled from the spec: `treeWalkPool.Release` is defined in another file.
"If a live entry matches `params` exactly ... it is removed from the pool and
handed to the caller"; otherwise the caller gets nothing and the pool is
unchanged.  Eviction after inactivity is not part of the model. -/
def treeWalkPool.Release (pool : treeWalkPool) (params : listParams) :
    Option treeWalk × treeWalkPool :=
  match pool.lookup params with
  | some walk => (some walk, pool.filter fun kv => !decide (kv.1 = params))
  | none => (none, pool)

/-- Modelled from the spec: `treeWalkPool.Set` is defined in another file.  The
stream and its cancel signal "are registered under the ... continuation marker
for a future call to find", and "at most one entry per distinct ListingRequest
key exists at a time". -/
def treeWalkPool.Set (pool : treeWalkPool) (params : listParams) (walk : treeWalk) :
    treeWalkPool :=
  (params, walk) :: pool.filter fun kv => !decide (kv.1 = params)

/-- The receiver `xl xlObjects`, as far as this file reads it: its disks.  The
pool behind the pointer `xl.listPool` is in `xlState`. -/
structure xlObjects where
  storageDisks : List (Option StorageAPI)

/-- What a call can change: the walk pool, and the number of `endWalkCh`
channels made so far (the next `make(chan struct{})` gets this number as its
identity). -/
structure xlState where
  listPool : treeWalkPool
  chans : Nat
  deriving DecidableEq, Repr

/-- The type `listDirFunc`. -/
abbrev listDirFunc := String → String → String → List String × Bool × Option GoError

/-- The functions, methods and constants of the package that this file uses and
other files define.  `startTreeWalk` gives the results the new walk's channel
will deliver; `readAllXLMetadata` returns `(partsMetadata, errs)`. -/
structure Package where
  pathJoin : String → String → String
  isObject : xlObjects → String → String → Bool
  startTreeWalk : String → String → String → Bool → listDirFunc → List treeWalkResult
  getObjectInfo : xlObjects → String → String → Except GoError ObjectInfo
  errorCause : GoError → GoError
  toObjectErr : GoError → String → String → GoError
  readAllXLMetadata : List (Option StorageAPI) → String → String →
    List xlMetaV1 × List (Option GoError)
  xlShouldHeal : List xlMetaV1 → List (Option GoError) → Bool
  xlHealStat : xlObjects → List xlMetaV1 → List (Option GoError) → HealObjectInfo
  checkListObjsArgs : String → String → String → String → xlObjects → Option GoError
  maxObjectList : Int

/-! ## `xlObjects.listObjectsHeal` -/

/-- How lines 115-132 end for one walk result without error. -/
inductive Resolution where
  | resolved (objInfo : ObjectInfo)
  | skipped
  | failed (err : GoError)
  deriving DecidableEq, Repr

/-- Lines 115-132: a name ending in a slash becomes a directory `ObjectInfo`;
any other name is looked up with `xl.getObjectInfo`, an error whose cause is
`errFileNotFound` skips the entry (`continue`) and any other error aborts. -/
def resolveEntry (pkg : Package) (xl : xlObjects) (bucket entry : String) : Resolution :=
  if hasSuffix entry slashSeparator then
    .resolved { Bucket := bucket, Name := entry, IsDir := true }
  else
    match pkg.getObjectInfo xl bucket entry with
    | .error err =>
      if pkg.errorCause err = .errFileNotFound then .skipped else .failed err
    | .ok objInfo => .resolved objInfo

/-- How the loop of lines 100-140 is left: it falls through to line 142 with
`objInfos`, `eof`, `nextMarker` and the channel as it then is, or the function
returns from inside the loop. -/
inductive LoopExit where
  | page (objInfos : List ObjectInfo) (eof : Bool) (nextMarker : String)
      (walkResultCh : List treeWalkResult)
  | returned (result : ListObjectsInfo) (err : Option GoError)
  deriving DecidableEq, Repr

/-- The loop `for i := 0; i < maxKeys; { ... }` of lines 100-140, started with
the channel's pending results and the current `i`, `objInfos`, `nextMarker`.
The loop condition `i < maxKeys` is tested before each receive, whether the
channel is closed (first case) or delivers `walkResult` (second case). -/
def walkLoop (pkg : Package) (xl : xlObjects) (bucket prefix_ : String) (maxKeys : Int) :
    List treeWalkResult → Int → List ObjectInfo → String → LoopExit
  | [], i, objInfos, nextMarker =>
    if i < maxKeys then .page objInfos true nextMarker []
    else .page objInfos false nextMarker []
  | walkResult :: ch, i, objInfos, nextMarker =>
    if i < maxKeys then
      match walkResult.err with
      | some err =>
        if err = .errFileNotFound then .returned {} none
        else .returned {} (some (pkg.toObjectErr err bucket prefix_))
      | none =>
        match resolveEntry pkg xl bucket walkResult.entry with
        | .skipped => walkLoop pkg xl bucket prefix_ maxKeys ch i objInfos nextMarker
        | .failed err => .returned {} (some (pkg.toObjectErr err bucket prefix_))
        | .resolved objInfo =>
          if walkResult.end_ = true then
            .page (objInfos ++ [objInfo]) true objInfo.Name ch
          else
            walkLoop pkg xl bucket prefix_ maxKeys ch (i + 1) (objInfos ++ [objInfo])
              objInfo.Name
    else .page objInfos false nextMarker (walkResult :: ch)

/-- One iteration of `for _, objInfo := range objInfos` (lines 148-170).  The
read lock taken around the metadata read has no effect on the result. -/
def healStep (pkg : Package) (xl : xlObjects) (bucket : String)
    (result : ListObjectsInfo) (objInfo : ObjectInfo) : ListObjectsInfo :=
  let result := { result with NextMarker := objInfo.Name }
  if objInfo.IsDir then
    { result with Prefixes := result.Prefixes ++ [objInfo.Name] }
  else
    let (partsMetadata, errs) := pkg.readAllXLMetadata xl.storageDisks bucket objInfo.Name
    if pkg.xlShouldHeal partsMetadata errs then
      let healStat := pkg.xlHealStat xl partsMetadata errs
      { result with
        Objects := result.Objects ++ [{
          Name := objInfo.Name
          ModTime := objInfo.ModTime
          Size := objInfo.Size
          IsDir := false
          HealObjectInfo := some healStat }] }
    else result

/-- Lines 81-85: `recursive` is true unless the delimiter is the slash. -/
def recursiveOf (delimiter : String) : Bool :=
  if delimiter = slashSeparator then false else true

/-- Lines 81-95: the walk the call reads from, with the pool and the channel
count after it was obtained: the walk released from the pool under
`listParams{bucket, recursive, marker, prefix, heal}` if there is one, and
otherwise a new walk over `listDirHealFactory(xl.isObject, xl.storageDisks...)`. -/
def acquireWalk (pkg : Package) (xl : xlObjects) (st : xlState)
    (bucket prefix_ marker delimiter : String) : treeWalk × xlState :=
  let recursive := recursiveOf delimiter
  let heal := true
  match st.listPool.Release ⟨bucket, recursive, marker, prefix_, heal⟩ with
  | (some walk, pool) => (walk, { st with listPool := pool })
  | (none, pool) =>
    let endWalkCh := st.chans
    let isLeaf := pkg.isObject xl
    let listDir := listDirHealFactory pkg.pathJoin isLeaf xl.storageDisks
    let walkResultCh := pkg.startTreeWalk bucket prefix_ marker recursive listDir
    (⟨walkResultCh, endWalkCh⟩, { listPool := pool, chans := st.chans + 1 })

/-- The method `xl.listObjectsHeal(bucket, prefix, marker, delimiter, maxKeys)`:
its two results and the state it leaves. -/
def listObjectsHeal (pkg : Package) (xl : xlObjects) (st : xlState)
    (bucket prefix_ marker delimiter : String) (maxKeys : Int) :
    (ListObjectsInfo × Option GoError) × xlState :=
  let recursive := recursiveOf delimiter
  let heal := true
  let (walk, st) := acquireWalk pkg xl st bucket prefix_ marker delimiter
  match walkLoop pkg xl bucket prefix_ maxKeys walk.resultCh 0 [] "" with
  | .returned result err => ((result, err), st)
  | .page objInfos eof nextMarker walkResultCh =>
    let params : listParams := ⟨bucket, recursive, nextMarker, prefix_, heal⟩
    let st :=
      if !eof then { st with listPool := st.listPool.Set params ⟨walkResultCh, walk.endWalkCh⟩ }
      else st
    let result := objInfos.foldl (healStep pkg xl bucket) { IsTruncated := !eof }
    ((result, none), st)

/-- The method `xl.ListObjectsHeal(bucket, prefix, marker, delimiter, maxKeys)`. -/
def ListObjectsHeal (pkg : Package) (xl : xlObjects) (st : xlState)
    (bucket prefix_ marker delimiter : String) (maxKeys : Int) :
    (ListObjectsInfo × Option GoError) × xlState :=
  match pkg.checkListObjsArgs bucket prefix_ marker delimiter xl with
  | some err => (({}, some err), st)
  | none =>
    if maxKeys = 0 then (({}, none), st)
    else if delimiter = slashSeparator ∧ prefix_ = slashSeparator then (({}, none), st)
    else
      let maxKeys :=
        if maxKeys < 0 ∨ maxKeys > pkg.maxObjectList then pkg.maxObjectList else maxKeys
      match listObjectsHeal pkg xl st bucket prefix_ marker delimiter maxKeys with
      | ((listObjInfo, none), st) => ((listObjInfo, none), st)
      | ((_, some err), st) => (({}, some (pkg.toObjectErr err bucket prefix_)), st)

/-! ## Vocabulary of the listing properties -/

/-- The entries of `results` that resolve (lines 115-132), as `ObjectInfo`s, in
the order of the walk: directories, and objects found by `getObjectInfo`. -/
def resolvedInfos (pkg : Package) (xl : xlObjects) (bucket : String)
    (results : List treeWalkResult) : List ObjectInfo :=
  results.filterMap fun r =>
    match resolveEntry pkg xl bucket r.entry with
    | .resolved objInfo => some objInfo
    | _ => none

/-- The pool key of a heal listing: `listParams{bucket, recursive, marker, prefix,
heal}` with `heal = true`. -/
def poolKey (bucket delimiter marker prefix_ : String) : listParams :=
  ⟨bucket, recursiveOf delimiter, marker, prefix_, true⟩

/-- The lookup of `entry` fails with an error whose cause is not
`errFileNotFound`: the failure that aborts the call. -/
def lookupFails (pkg : Package) (xl : xlObjects) (bucket entry : String) : Bool :=
  match resolveEntry pkg xl bucket entry with
  | .failed _ => true
  | _ => false

/-- The name of the last of `objInfos`, or `marker` when there is none. -/
def lastNameOr (marker : String) (objInfos : List ObjectInfo) : String :=
  match objInfos.getLast? with
  | some objInfo => objInfo.Name
  | none => marker

/-- The last of the results read came with the end flag and resolved: the walk
said it was over. -/
def endSeen (pkg : Package) (xl : xlObjects) (bucket : String)
    (consumed : List treeWalkResult) : Bool :=
  match consumed.getLast? with
  | some r =>
    r.end_ && (match resolveEntry pkg xl bucket r.entry with
      | .resolved _ => true
      | _ => false)
  | none => false

/-- The results of a walk that resolve, each with its end flag, in walk order. -/
def resolvedFlagged (pkg : Package) (xl : xlObjects) (bucket : String)
    (results : List treeWalkResult) : List (ObjectInfo × Bool) :=
  results.filterMap fun r =>
    match resolveEntry pkg xl bucket r.entry with
    | .resolved objInfo => some (objInfo, r.end_)
    | _ => none

/-- The list up to and including its first end-flagged element: where the walk
ends. -/
def untilEnd : List (ObjectInfo × Bool) → List (ObjectInfo × Bool)
  | [] => []
  | (objInfo, flag) :: rest =>
    if flag then [(objInfo, flag)] else (objInfo, flag) :: untilEnd rest

/-- The first `maxKeys` entries of the walk that resolve, or all of them when
the walk ends before. -/
def firstResolved (pkg : Package) (xl : xlObjects) (bucket : String) (maxKeys : Nat)
    (results : List treeWalkResult) : List ObjectInfo :=
  ((untilEnd (resolvedFlagged pkg xl bucket results)).take maxKeys).map Prod.fst

/-- The heal test on the metadata read for `objInfo`:
`xlShouldHeal(readAllXLMetadata(xl.storageDisks, bucket, objInfo.Name))`. -/
def needsHeal (pkg : Package) (xl : xlObjects) (bucket : String) (objInfo : ObjectInfo) :
    Bool :=
  pkg.xlShouldHeal (pkg.readAllXLMetadata xl.storageDisks bucket objInfo.Name).1
    (pkg.readAllXLMetadata xl.storageDisks bucket objInfo.Name).2

/-- The listed form of an object that needs healing: its name, modification time
and size, not a directory, with the heal status of the metadata read for it. -/
def healedInfo (pkg : Package) (xl : xlObjects) (bucket : String) (objInfo : ObjectInfo) :
    ObjectInfo :=
  { Name := objInfo.Name
    ModTime := objInfo.ModTime
    Size := objInfo.Size
    IsDir := false
    HealObjectInfo := some (pkg.xlHealStat xl
      (pkg.readAllXLMetadata xl.storageDisks bucket objInfo.Name).1
      (pkg.readAllXLMetadata xl.storageDisks bucket objInfo.Name).2) }

/-- A package for examples: a new walk delivers `walk`; the object `missing` is
not found and `broken` cannot be read; every other object is found with size 1;
an object needs healing unless its name is `healthy`. -/
def examplePackage (walk : List treeWalkResult) : Package where
  pathJoin := joinWithSlash
  isObject := fun _ _ _ => true
  startTreeWalk := fun _ _ _ _ _ => walk
  getObjectInfo := fun _ bucket entry =>
    if entry = "missing" then .error .errFileNotFound
    else if entry = "broken" then .error (.other 5)
    else .ok { Bucket := bucket, Name := entry, ModTime := 7, Size := 1 }
  errorCause := fun err => err
  toObjectErr := fun err _ _ => err
  readAllXLMetadata := fun _ _ object =>
    if object = "healthy" then ([⟨7, 1⟩, ⟨7, 1⟩], [none, none])
    else ([⟨7, 1⟩], [none, some .errFileNotFound])
  xlShouldHeal := fun _ errs => errs.any Option.isSome
  xlHealStat := fun _ partsMetadata errs =>
    ⟨false, (errs.filter Option.isSome).length, 0, decide (0 < partsMetadata.length)⟩
  checkListObjsArgs := fun _ _ _ _ _ => none
  maxObjectList := 1000

/-- An `xlObjects` for examples, with two disks. -/
def exampleXL : xlObjects := ⟨[diskListing ["a", "b"], diskListing ["b", "c"]]⟩

/-- A state for examples: an empty pool, no channel made yet. -/
def emptyState : xlState := ⟨[], 0⟩

/-- The loop goes on to the next receive after the result `r`: it carries no
error, its lookup does not fail, and it is not a resolved entry with the end
flag. -/
def goesOn (pkg : Package) (xl : xlObjects) (bucket : String) (r : treeWalkResult) : Bool :=
  r.err.isNone &&
    (match resolveEntry pkg xl bucket r.entry with
      | .resolved _ => !r.end_
      | .skipped => true
      | .failed _ => false)

/-- The loop goes on after each of the results `consumed`. -/
def readsThrough (pkg : Package) (xl : xlObjects) (bucket : String)
    (consumed : List treeWalkResult) : Bool :=
  consumed.all (goesOn pkg xl bucket)

/-- The walk result names a directory: its entry ends in the slash. -/
def isDirEntry (r : treeWalkResult) : Bool := hasSuffix r.entry slashSeparator

/-- The walk is parked in the pool of the state, under some key. -/
def pooled (st : xlState) (walk : treeWalk) : Bool :=
  st.listPool.any fun kv => decide (kv.2 = walk)

/-! ## The walk entries as the description of the listing has them

These definitions read an entry off its name and `getObjectInfo` alone; they do
not go through `resolveEntry` or the loop. -/

/-- What an entry of the walk resolves to: a name ending in a slash is a
directory of the bucket, resolved without a lookup; any other name is the object
that `getObjectInfo` finds, when it finds one. -/
def foundInfo (pkg : Package) (xl : xlObjects) (bucket entry : String) : Option ObjectInfo :=
  if hasSuffix entry slashSeparator then
    some { Bucket := bucket, Name := entry, IsDir := true }
  else
    match pkg.getObjectInfo xl bucket entry with
    | .ok objInfo => some objInfo
    | .error _ => none

/-- The entry is not a directory and `getObjectInfo` fails for it with a cause
other than `errFileNotFound`. -/
def lookupAborts (pkg : Package) (xl : xlObjects) (bucket entry : String) : Bool :=
  !hasSuffix entry slashSeparator &&
    (match pkg.getObjectInfo xl bucket entry with
      | .ok _ => false
      | .error err => !decide (pkg.errorCause err = .errFileNotFound))

/-- The entries of `results` that resolve, in walk order. -/
def foundInfos (pkg : Package) (xl : xlObjects) (bucket : String)
    (results : List treeWalkResult) : List ObjectInfo :=
  results.filterMap fun r => foundInfo pkg xl bucket r.entry

/-- The first `maxKeys` entries of the walk that resolve, in walk order, or all
of them up to the one that carries the end flag when the walk ends before. -/
def walkPage (pkg : Package) (xl : xlObjects) (bucket : String) (maxKeys : Nat)
    (results : List treeWalkResult) : List ObjectInfo :=
  ((untilEnd (results.filterMap fun r =>
    (foundInfo pkg xl bucket r.entry).map fun objInfo => (objInfo, r.end_))).take
      maxKeys).map Prod.fst

/-- After the result `r` the listing reads on: `r` carries no error, its lookup
does not abort, and it is not an entry that resolves with the end flag. -/
def continuesAfter (pkg : Package) (xl : xlObjects) (bucket : String) (r : treeWalkResult) :
    Bool :=
  r.err.isNone && !lookupAborts pkg xl bucket r.entry &&
    !(r.end_ && (foundInfo pkg xl bucket r.entry).isSome)

/-- The listing reads on after each of the results `consumed`. -/
def continuesThrough (pkg : Package) (xl : xlObjects) (bucket : String)
    (consumed : List treeWalkResult) : Bool :=
  consumed.all (continuesAfter pkg xl bucket)

/-- An `xlObjects` for examples whose disks all fail or are nil. -/
def failingXL : xlObjects := ⟨[diskFailing, none, diskFailing]⟩

/-! ## The order on names -/

theorem leStr_iff (x y : String) : leStr x y ↔ x ≤ y :=
  String.le_iff_toList_le.symm

theorem not_leStr_iff (x y : String) : ¬ leStr x y ↔ y < x := by
  rw [leStr_iff]; exact not_le

instance leStr_isTotal : IsTotal String leStr :=
  ⟨fun x y => by simp only [leStr_iff]; exact le_total x y⟩

instance leStr_isTrans : IsTrans String leStr :=
  ⟨fun x y z hxy hyz => by simp only [leStr_iff] at *; exact le_trans hxy hyz⟩

instance leStr_isAntisymm : IsAntisymm String leStr :=
  ⟨fun x y hxy hyx => by simp only [leStr_iff] at *; exact le_antisymm hxy hyx⟩

theorem sorted_sortStrings (a : List String) : (sortStrings a).Sorted leStr :=
  List.sorted_insertionSort leStr a

theorem perm_sortStrings (a : List String) : (sortStrings a).Perm a :=
  List.perm_insertionSort leStr a

theorem mem_sortStrings {a : List String} {x : String} : x ∈ sortStrings a ↔ x ∈ a :=
  (perm_sortStrings a).mem_iff

theorem sortStrings_eq_self {a : List String} (h : a.Sorted leStr) : sortStrings a = a :=
  List.Sorted.insertionSort_eq h

theorem sortStrings_congr {a b : List String} (h : a.Perm b) : sortStrings a = sortStrings b :=
  List.eq_of_perm_of_sorted (((perm_sortStrings a).trans h).trans (perm_sortStrings b).symm)
    (sorted_sortStrings a) (sorted_sortStrings b)

theorem sorted_lt_of_sorted_le_nodup {a : List String} (h : a.Sorted leStr) (hn : a.Nodup) :
    a.Sorted (· < ·) := by
  have h2 : a.Pairwise (fun x y => leStr x y ∧ x ≠ y) := List.Pairwise.and h hn
  exact h2.imp (fun {x y} hxy => lt_of_le_of_ne ((leStr_iff x y).1 hxy.1) hxy.2)

theorem sorted_le_of_sorted_lt {a : List String} (h : a.Sorted (· < ·)) : a.Sorted leStr :=
  List.Pairwise.imp (fun {x y} hxy => (leStr_iff x y).2 (le_of_lt hxy)) h

/-! ## Binary search -/

theorem searchLoop_spec (f : Nat → Bool) (n : Nat) :
    ∀ fuel i j, j - i ≤ fuel → i ≤ j → j ≤ n →
      (0 < i → f (i - 1) = false) → (j < n → f j = true) →
      searchLoop f fuel i j ≤ n ∧
        (0 < searchLoop f fuel i j → f (searchLoop f fuel i j - 1) = false) ∧
        (searchLoop f fuel i j < n → f (searchLoop f fuel i j) = true) := by
  intro fuel
  induction fuel with
  | zero =>
    intro i j hfuel hij hjn hlo hhi
    have hEq : i = j := by omega
    subst hEq
    simp only [searchLoop]
    exact ⟨hjn, hlo, hhi⟩
  | succ fuel ih =>
    intro i j hfuel hij hjn hlo hhi
    simp only [searchLoop]
    by_cases hlt : i < j
    · simp only [hlt, if_true]
      have hmid1 : i ≤ (i + j) / 2 := by omega
      have hmid2 : (i + j) / 2 < j := by omega
      cases hf : f ((i + j) / 2) with
      | false =>
        simp only [Bool.not_false, if_true]
        apply ih
        · omega
        · omega
        · exact hjn
        · intro _
          simpa using hf
        · exact hhi
      | true =>
        simp only [Bool.not_true, Bool.false_eq_true, if_false]
        apply ih
        · omega
        · exact hmid1
        · omega
        · exact hlo
        · intro _
          exact hf
    · simp only [hlt, if_false]
      have hEq : i = j := by omega
      subst hEq
      exact ⟨hjn, hlo, hhi⟩

/-- The bound on the iterations is never what stops the loop: any two bounds of
at least `j - i` give the same index. -/
theorem searchLoop_fuel (f : Nat → Bool) :
    ∀ fuel1 fuel2 i j, j - i ≤ fuel1 → j - i ≤ fuel2 →
      searchLoop f fuel1 i j = searchLoop f fuel2 i j := by
  intro fuel1
  induction fuel1 with
  | zero =>
    intro fuel2 i j h1 _
    have hji : ¬ i < j := by omega
    cases fuel2 with
    | zero => rfl
    | succ m => simp [searchLoop, hji]
  | succ n ih =>
    intro fuel2 i j h1 h2
    cases fuel2 with
    | zero =>
      have hji : ¬ i < j := by omega
      simp [searchLoop, hji]
    | succ m =>
      simp only [searchLoop]
      by_cases hlt : i < j
      · simp only [hlt, if_true]
        cases hf : f ((i + j) / 2) with
        | false =>
          simp only [Bool.not_false, if_true]
          exact ih m _ _ (by omega) (by omega)
        | true =>
          simp only [Bool.not_true, Bool.false_eq_true, if_false]
          exact ih m _ _ (by omega) (by omega)
      · simp only [hlt, if_false]

theorem search_spec (n : Nat) (f : Nat → Bool) :
    search n f ≤ n ∧ (0 < search n f → f (search n f - 1) = false) ∧
      (search n f < n → f (search n f) = true) := by
  unfold search
  apply searchLoop_spec f n n 0 n
  · omega
  · omega
  · omega
  · intro h; omega
  · intro h; omega

theorem searchStrings_le_length (a : List String) (x : String) :
    searchStrings a x ≤ a.length :=
  (search_spec _ _).1

/-- On a sorted slice `sort.SearchStrings` returns an index below the length
exactly when some element is `>= x`. -/
theorem searchStrings_lt_length_iff {a : List String} (hs : a.Sorted leStr) (x : String) :
    searchStrings a x < a.length ↔ ∃ y ∈ a, leStr x y := by
  obtain ⟨hle, hlo, hhi⟩ := search_spec a.length (fun i => decide (x.data ≤ (a.getD i "").data))
  constructor
  · intro hlt
    have h1 := hhi hlt
    refine ⟨a.getD (searchStrings a x) "", ?_, ?_⟩
    · have hget : a.getD (searchStrings a x) "" = a[searchStrings a x] := by
        simp [List.getD_eq_getElem?_getD, List.getElem?_eq_getElem hlt]
      rw [hget]
      exact List.getElem_mem _
    · simpa [searchStrings] using h1
  · rintro ⟨y, hy, hxy⟩
    by_contra hnot
    have hEq : searchStrings a x = a.length := le_antisymm hle (not_lt.1 hnot)
    have hpos : 0 < a.length := List.length_pos_of_mem hy
    have h0 : 0 < search a.length (fun i => decide (x.data ≤ (a.getD i "").data)) := by
      have : search a.length (fun i => decide (x.data ≤ (a.getD i "").data)) = a.length := hEq
      omega
    have h1 := hlo h0
    have hEq2 : search a.length (fun i => decide (x.data ≤ (a.getD i "").data)) = a.length := hEq
    rw [hEq2] at h1
    have hlast : a.length - 1 < a.length := by omega
    have hget : a.getD (a.length - 1) "" = a[a.length - 1] := by
      simp [List.getD_eq_getElem?_getD, List.getElem?_eq_getElem hlast]
    have h2 : ¬ leStr x (a[a.length - 1]) := by
      have := h1
      simp only [decide_eq_false_iff_not] at this
      rw [hget] at this
      exact this
    obtain ⟨k, hk, rfl⟩ := List.getElem_of_mem hy
    have h3 : leStr a[k] a[a.length - 1] := by
      by_cases hkl : k = a.length - 1
      · subst hkl
        exact (leStr_iff _ _).2 (le_refl _)
      · have hk2 : k < a.length - 1 := by omega
        exact (List.pairwise_iff_getElem.1 hs) k (a.length - 1) hk hlast hk2
    exact h2 (leStr_isTrans.trans _ _ _ hxy h3)

/-! ## The merge of `listDirHealFactory`: invariants of the loop over the disks -/

theorem sorted_processEntries (pathJoin : String → String → String)
    (isLeaf : String → String → Bool) (bucket prefixDir prefixEntry : String)
    (entries : List String) :
    (processEntries pathJoin isLeaf bucket prefixDir prefixEntry entries).Sorted leStr :=
  sorted_sortStrings _

/-- Membership in the entries appended for a later disk, when `mergedEntries` is
sorted: the entry is above every merged name. -/
theorem mem_newEntriesOf {mergedEntries : List String} (hs : mergedEntries.Sorted leStr)
    (entries : List String) (e : String) :
    e ∈ newEntriesOf mergedEntries entries ↔ e ∈ entries ∧ ∀ y ∈ mergedEntries, y < e := by
  unfold newEntriesOf
  rw [List.mem_filter]
  apply and_congr_right
  intro _
  rw [Bool.not_eq_true', decide_eq_false_iff_not, searchStrings_lt_length_iff hs]
  constructor
  · intro h y hy
    exact (not_leStr_iff e y).1 (fun hle => h ⟨y, hy, hle⟩)
  · rintro h ⟨y, hy, hle⟩
    exact (not_leStr_iff e y).2 (h y hy) hle

theorem listDirStep_sorted (pathJoin : String → String → String)
    (isLeaf : String → String → Bool) (bucket prefixDir prefixEntry : String)
    (mergedEntries : List String) (disk : Option StorageAPI)
    (hs : mergedEntries.Sorted leStr) :
    (listDirStep pathJoin isLeaf bucket prefixDir prefixEntry mergedEntries disk).Sorted
      leStr := by
  unfold listDirStep
  cases disk with
  | none => exact hs
  | some d =>
    simp only
    cases d.ListDir bucket prefixDir with
    | error e => exact hs
    | ok entries =>
      simp only
      split
      · exact sorted_sortStrings _
      · split
        · exact sorted_sortStrings _
        · exact hs

theorem foldl_listDirStep_sorted (pathJoin : String → String → String)
    (isLeaf : String → String → Bool) (bucket prefixDir prefixEntry : String)
    (disks : List (Option StorageAPI)) :
    ∀ mergedEntries : List String, mergedEntries.Sorted leStr →
      (disks.foldl (listDirStep pathJoin isLeaf bucket prefixDir prefixEntry)
        mergedEntries).Sorted leStr := by
  induction disks with
  | nil => intro m hm; exact hm
  | cons d ds ih =>
    intro m hm
    exact ih _ (listDirStep_sorted pathJoin isLeaf bucket prefixDir prefixEntry m d hm)

/-- The loop body in terms of the disk's processed list. -/
theorem listDirStep_eq (pathJoin : String → String → String)
    (isLeaf : String → String → Bool) (bucket prefixDir prefixEntry : String)
    (mergedEntries : List String) (disk : Option StorageAPI) :
    listDirStep pathJoin isLeaf bucket prefixDir prefixEntry mergedEntries disk =
      match processedList pathJoin isLeaf bucket prefixDir prefixEntry disk with
      | none => mergedEntries
      | some entries =>
        if mergedEntries.length = 0 then sortStrings entries
        else if (newEntriesOf mergedEntries entries).length > 0 then
          sortStrings (mergedEntries ++ newEntriesOf mergedEntries entries)
        else mergedEntries := by
  unfold listDirStep processedList
  cases disk with
  | none => rfl
  | some d =>
    simp only
    cases d.ListDir bucket prefixDir with
    | error e => rfl
    | ok entries => rfl

theorem processedList_eq_none_iff (pathJoin : String → String → String)
    (isLeaf : String → String → Bool) (bucket prefixDir prefixEntry : String)
    (disk : Option StorageAPI) :
    processedList pathJoin isLeaf bucket prefixDir prefixEntry disk = none ↔
      reachable bucket prefixDir disk = false := by
  unfold processedList reachable
  cases disk with
  | none => simp
  | some d =>
    simp only
    cases d.ListDir bucket prefixDir with
    | error e => simp
    | ok entries => simp

theorem sorted_of_processedList {pathJoin : String → String → String}
    {isLeaf : String → String → Bool} {bucket prefixDir prefixEntry : String}
    {disk : Option StorageAPI} {l : List String}
    (h : processedList pathJoin isLeaf bucket prefixDir prefixEntry disk = some l) :
    l.Sorted leStr := by
  unfold processedList at h
  cases disk with
  | none => simp at h
  | some d =>
    simp only at h
    cases hl : d.ListDir bucket prefixDir with
    | error e => rw [hl] at h; simp at h
    | ok entries =>
      rw [hl] at h
      simp only [Option.some.injEq] at h
      rw [← h]
      exact sorted_processEntries _ _ _ _ _ _

/-- One disk keeps `mergedEntries` strictly ascending when the disk's own
processed list has no repeated name. -/
theorem listDirStep_strict (pathJoin : String → String → String)
    (isLeaf : String → String → Bool) (bucket prefixDir prefixEntry : String)
    (mergedEntries : List String) (disk : Option StorageAPI)
    (hs : mergedEntries.Sorted (· < ·))
    (hn : ∀ l, processedList pathJoin isLeaf bucket prefixDir prefixEntry disk = some l →
      l.Nodup) :
    (listDirStep pathJoin isLeaf bucket prefixDir prefixEntry mergedEntries disk).Sorted
      (· < ·) := by
  rw [listDirStep_eq]
  cases hp : processedList pathJoin isLeaf bucket prefixDir prefixEntry disk with
  | none => exact hs
  | some P =>
    simp only
    have hP : P.Sorted leStr := sorted_of_processedList hp
    have hPs := sorted_lt_of_sorted_le_nodup hP (hn P hp)
    split
    · rw [sortStrings_eq_self hP]
      exact hPs
    · split
      · have hsub : (newEntriesOf mergedEntries P).Sorted (· < ·) := List.Sorted.filter _ hPs
        have happ : (mergedEntries ++ newEntriesOf mergedEntries P).Sorted (· < ·) := by
          apply List.pairwise_append.2
          refine ⟨hs, hsub, ?_⟩
          intro y hy e he
          exact ((mem_newEntriesOf (sorted_le_of_sorted_lt hs) _ e).1 he).2 y hy
        rw [sortStrings_eq_self (sorted_le_of_sorted_lt happ)]
        exact happ
      · exact hs

theorem foldl_listDirStep_strict (pathJoin : String → String → String)
    (isLeaf : String → String → Bool) (bucket prefixDir prefixEntry : String)
    (disks : List (Option StorageAPI))
    (hn : ∀ disk ∈ disks, ∀ l,
      processedList pathJoin isLeaf bucket prefixDir prefixEntry disk = some l → l.Nodup) :
    ∀ mergedEntries : List String, mergedEntries.Sorted (· < ·) →
      (disks.foldl (listDirStep pathJoin isLeaf bucket prefixDir prefixEntry)
        mergedEntries).Sorted (· < ·) := by
  induction disks with
  | nil => intro m hm; exact hm
  | cons d ds ih =>
    intro m hm
    apply ih
    · intro d2 hd2
      exact hn d2 (List.mem_cons_of_mem _ hd2)
    · exact listDirStep_strict pathJoin isLeaf bucket prefixDir prefixEntry m d hm
        (hn d (List.mem_cons_self _ _))

/-- Disks that are nil or fail leave `mergedEntries` as it is. -/
theorem foldl_listDirStep_unreachable (pathJoin : String → String → String)
    (isLeaf : String → String → Bool) (bucket prefixDir prefixEntry : String)
    (disks : List (Option StorageAPI))
    (hu : ∀ disk ∈ disks, reachable bucket prefixDir disk = false) :
    ∀ mergedEntries : List String,
      disks.foldl (listDirStep pathJoin isLeaf bucket prefixDir prefixEntry) mergedEntries =
        mergedEntries := by
  induction disks with
  | nil => intro m; rfl
  | cons d ds ih =>
    intro m
    have hd : processedList pathJoin isLeaf bucket prefixDir prefixEntry d = none :=
      (processedList_eq_none_iff _ _ _ _ _ _).2 (hu d (List.mem_cons_self _ _))
    rw [List.foldl_cons, listDirStep_eq, hd]
    exact ih (fun x hx => hu x (List.mem_cons_of_mem _ hx)) m

/-! ## `strings.TrimSuffix` with a slash -/

theorem trimSuffix_slash (name : String) :
    trimSuffix name slashSeparator = dropOneTrailingSlash name := by
  unfold trimSuffix dropOneTrailingSlash hasSuffix slashSeparator
  have hrev : name.data = name.data.reverse.reverse := (List.reverse_reverse _).symm
  cases hr : name.data.reverse with
  | nil =>
    have : name.data = [] := by simpa using hr
    simp [List.isSuffixOf, this]
  | cons c rest =>
    have hd : name.data = rest.reverse ++ [c] := by
      rw [hrev, hr]; simp
    by_cases hc : c = '/'
    · subst hc
      simp [List.isSuffixOf, hr, hd]
    · have hne : ¬ ('/' = c) := fun h => hc h.symm
      simp [List.isSuffixOf, hr, hc, hne]

/-! ## Properties of the merged listing -/

/-- C1 (the code departs from the claim).  Disk A lists `a` and `c`, disk B lists
only `b`: both are reachable, `b` is in B's processed list, and the merged list
is `[a, c]`.  The test `idx < len(mergedEntries)` of line 63 holds for `b`
because `c` is not below it, so `b` is skipped although it is not merged yet. -/
theorem C1_later_name_below_merged_is_dropped :
    reachable "bucket" "" (diskListing ["a", "c"]) = true ∧
    reachable "bucket" "" (diskListing ["b"]) = true ∧
    processedList joinWithSlash (fun _ _ => false) "bucket" "" "" (diskListing ["b"]) =
      some ["b"] ∧
    searchStrings ["a", "c"] "b" = 1 ∧
    (listDirHealFactory joinWithSlash (fun _ _ => false)
      [diskListing ["a", "c"], diskListing ["b"]] "bucket" "" "").1 = ["a", "c"] ∧
    "b" ∉ (listDirHealFactory joinWithSlash (fun _ _ => false)
      [diskListing ["a", "c"], diskListing ["b"]] "bucket" "" "").1 := by
  decide

/-- C2, as stated, fails: a single reachable disk whose listing repeats the name
`a` gives the merged list `[a, a]`, which is not free of repetitions. -/
theorem C2_repeated_name_within_one_disk :
    reachable "bucket" "" (diskListing ["a", "a"]) = true ∧
    (listDirHealFactory joinWithSlash (fun _ _ => false)
      [diskListing ["a", "a"]] "bucket" "" "").1 = ["a", "a"] ∧
    ¬ (listDirHealFactory joinWithSlash (fun _ _ => false)
      [diskListing ["a", "a"]] "bucket" "" "").1.Nodup := by
  decide

/-- C2 (amended).  For every disk set in which the processed list of each
reachable disk has no repeated name, and every `isLeaf`, `prefixDir` and
`prefixEntry`, the merged list returned by the `listDir` closure is strictly
ascending, so that it contains no name twice. -/
theorem C2_merged_strictly_ascending (pathJoin : String → String → String)
    (isLeaf : String → String → Bool) (disks : List (Option StorageAPI))
    (bucket prefixDir prefixEntry : String)
    (hn : ∀ disk ∈ disks, ∀ l,
      processedList pathJoin isLeaf bucket prefixDir prefixEntry disk = some l → l.Nodup) :
    (listDirHealFactory pathJoin isLeaf disks bucket prefixDir prefixEntry).1.Sorted
      (· < ·) := by
  unfold listDirHealFactory
  exact foldl_listDirStep_strict pathJoin isLeaf bucket prefixDir prefixEntry disks hn []
    List.sorted_nil

/-- C2 (amended) at disks listing `{a/, b}` and `{b, c}` with every name a leaf. -/
theorem C2_merged_strictly_ascending_witness :
    (listDirHealFactory joinWithSlash (fun _ _ => true)
      [diskListing ["b", "a/"], none, diskListing ["b", "c"]] "bucket" "" "").1.Sorted
      (· < ·) :=
  C2_merged_strictly_ascending joinWithSlash (fun _ _ => true)
    [diskListing ["b", "a/"], none, diskListing ["b", "c"]] "bucket" "" "" (by decide)

/-- C3 (the code departs from the claim).  The disk sets `[A, B]` and `[B, A]`,
with A listing `a` and `c` and B listing `b`, are permutations of each other
and the merged lists differ: `[a, c]` for the first order and `[b, c]` for the
second. -/
theorem C3_merged_list_depends_on_disk_order :
    (listDirHealFactory joinWithSlash (fun _ _ => false)
      [diskListing ["a", "c"], diskListing ["b"]] "bucket" "" "").1 = ["a", "c"] ∧
    (listDirHealFactory joinWithSlash (fun _ _ => false)
      [diskListing ["b"], diskListing ["a", "c"]] "bucket" "" "").1 = ["b", "c"] ∧
    listDirHealFactory joinWithSlash (fun _ _ => false)
      [diskListing ["a", "c"], diskListing ["b"]] "bucket" "" "" ≠
    listDirHealFactory joinWithSlash (fun _ _ => false)
      [diskListing ["b"], diskListing ["a", "c"]] "bucket" "" "" := by
  decide

/-- C9.  When exactly one disk of the set is reachable, the merged list is that
disk's listing restricted to the names beginning with `prefixEntry`, with one
trailing slash removed from each name for which `isLeaf` holds, sorted
ascending; it has the same names as the unsorted list, each as often; and
removing the trailing slash of a name ending in two slashes leaves one. -/
theorem C9_single_reachable_disk (pathJoin : String → String → String)
    (isLeaf : String → String → Bool) (bucket prefixDir prefixEntry : String)
    (before after : List (Option StorageAPI)) (d : StorageAPI) (entries : List String)
    (hb : ∀ disk ∈ before, reachable bucket prefixDir disk = false)
    (ha : ∀ disk ∈ after, reachable bucket prefixDir disk = false)
    (hd : d.ListDir bucket prefixDir = .ok entries) :
    (listDirHealFactory pathJoin isLeaf (before ++ some d :: after)
        bucket prefixDir prefixEntry).1 =
      singleDiskListing pathJoin isLeaf bucket prefixDir prefixEntry entries ∧
    (listDirHealFactory pathJoin isLeaf (before ++ some d :: after)
        bucket prefixDir prefixEntry).1.Sorted (· ≤ ·) ∧
    (listDirHealFactory pathJoin isLeaf (before ++ some d :: after)
        bucket prefixDir prefixEntry).1.Perm
      ((entries.filter fun name => hasPrefix name prefixEntry).map fun name =>
        if isLeaf bucket (pathJoin prefixDir name) then dropOneTrailingSlash name else name) ∧
    ∀ name : String, trimSuffix (name ++ "//") slashSeparator = name ++ "/" := by
  have hmerged : (listDirHealFactory pathJoin isLeaf (before ++ some d :: after)
        bucket prefixDir prefixEntry).1 =
      singleDiskListing pathJoin isLeaf bucket prefixDir prefixEntry entries := by
    unfold listDirHealFactory
    simp only [List.foldl_append, List.foldl_cons]
    rw [foldl_listDirStep_unreachable pathJoin isLeaf bucket prefixDir prefixEntry before hb,
      foldl_listDirStep_unreachable pathJoin isLeaf bucket prefixDir prefixEntry after ha]
    have hp : processedList pathJoin isLeaf bucket prefixDir prefixEntry (some d) =
        some (processEntries pathJoin isLeaf bucket prefixDir prefixEntry entries) := by
      simp [processedList, hd]
    rw [listDirStep_eq, hp]
    simp only [List.length_nil, if_true]
    rw [sortStrings_eq_self (sorted_processEntries _ _ _ _ _ _)]
    unfold processEntries singleDiskListing filterMatchingPrefix
    simp only [trimSuffix_slash]
    apply sortStrings_congr
    exact ((perm_sortStrings entries).filter _).map _
  refine ⟨hmerged, ?_, ?_, ?_⟩
  · rw [hmerged]
    exact (sorted_sortStrings _).imp (fun {x y} h => (leStr_iff x y).1 h)
  · rw [hmerged]
    exact perm_sortStrings _
  · intro name
    rw [trimSuffix_slash]
    unfold dropOneTrailingSlash
    have h1 : (name ++ "//").data.reverse = '/' :: '/' :: name.data.reverse := by
      simp [String.data_append]
    rw [h1]
    apply String.ext
    simp [String.data_append]

/-- C9 at the disk set of the description: disk A lists `{a, b, c}` and disk B
fails; the merged list is `[a, b, c]`. -/
theorem C9_single_reachable_disk_witness :
    (listDirHealFactory joinWithSlash (fun _ _ => true)
      ([] ++ some ⟨fun _ _ => .ok ["c", "a", "b"]⟩ :: [diskFailing]) "bucket" "" "").1 =
      ["a", "b", "c"] :=
  (C9_single_reachable_disk joinWithSlash (fun _ _ => true) "bucket" "" "" [] [diskFailing]
    ⟨fun _ _ => .ok ["c", "a", "b"]⟩ ["c", "a", "b"] (by decide) (by decide) rfl).1.trans
    (by decide)

/-- C10.  For every disk set in which the processed list of each reachable disk
has no repeated name, the merged list has no repeated name; and at each disk of
the set, no name already in the list merged from the earlier disks is among the
entries appended for that disk. -/
theorem C10_cross_disk_dedup (pathJoin : String → String → String)
    (isLeaf : String → String → Bool) (disks : List (Option StorageAPI))
    (bucket prefixDir prefixEntry : String)
    (hn : ∀ disk ∈ disks, ∀ l,
      processedList pathJoin isLeaf bucket prefixDir prefixEntry disk = some l → l.Nodup) :
    (listDirHealFactory pathJoin isLeaf disks bucket prefixDir prefixEntry).1.Nodup ∧
    ∀ (earlier later : List (Option StorageAPI)) (disk : Option StorageAPI)
      (entries : List String),
      disks = earlier ++ disk :: later →
      processedList pathJoin isLeaf bucket prefixDir prefixEntry disk = some entries →
      ∀ name ∈ (listDirHealFactory pathJoin isLeaf earlier bucket prefixDir prefixEntry).1,
        name ∉ newEntriesOf
          (listDirHealFactory pathJoin isLeaf earlier bucket prefixDir prefixEntry).1
          entries := by
  constructor
  · have hs : (listDirHealFactory pathJoin isLeaf disks bucket prefixDir prefixEntry).1.Sorted
        (· < ·) := by
      unfold listDirHealFactory
      exact foldl_listDirStep_strict pathJoin isLeaf bucket prefixDir prefixEntry disks hn []
        List.sorted_nil
    exact hs.nodup
  · intro earlier later disk entries _ _ name hname hnew
    have hsorted : (listDirHealFactory pathJoin isLeaf earlier bucket prefixDir
        prefixEntry).1.Sorted leStr := by
      unfold listDirHealFactory
      exact foldl_listDirStep_sorted pathJoin isLeaf bucket prefixDir prefixEntry earlier []
        List.sorted_nil
    exact lt_irrefl name (((mem_newEntriesOf hsorted entries name).1 hnew).2 name hname)

/-- C10 at the disk set of the description: disk A lists `{a, b}` and disk B
lists `{b, c}`; the merged list is `[a, b, c]`. -/
theorem C10_cross_disk_dedup_witness :
    (listDirHealFactory joinWithSlash (fun _ _ => false)
      [diskListing ["a", "b"], diskListing ["b", "c"]] "bucket" "" "").1 = ["a", "b", "c"] ∧
    (listDirHealFactory joinWithSlash (fun _ _ => false)
      [diskListing ["a", "b"], diskListing ["b", "c"]] "bucket" "" "").1.Nodup :=
  ⟨by decide,
    (C10_cross_disk_dedup joinWithSlash (fun _ _ => false)
      [diskListing ["a", "b"], diskListing ["b", "c"]] "bucket" "" "" (by decide)).1⟩

/-! ## The result loop of `listObjectsHeal` (lines 147-170) -/

theorem healStep_eq (pkg : Package) (xl : xlObjects) (bucket : String)
    (result : ListObjectsInfo) (objInfo : ObjectInfo) :
    healStep pkg xl bucket result objInfo =
      { IsTruncated := result.IsTruncated
        NextMarker := objInfo.Name
        Objects := result.Objects ++
          ([objInfo].filter fun o => !o.IsDir && needsHeal pkg xl bucket o).map
            (healedInfo pkg xl bucket)
        Prefixes := result.Prefixes ++ ([objInfo].filter fun o => o.IsDir).map fun o => o.Name } := by
  unfold healStep needsHeal healedInfo
  cases hd : objInfo.IsDir with
  | true => simp [hd]
  | false =>
    cases hm : pkg.readAllXLMetadata xl.storageDisks bucket objInfo.Name with
    | mk partsMetadata errs =>
      cases hh : pkg.xlShouldHeal partsMetadata errs with
      | true => simp [hd, hm, hh]
      | false => simp [hd, hm, hh]

theorem lastNameOr_cons (marker : String) (objInfo : ObjectInfo) (objInfos : List ObjectInfo) :
    lastNameOr marker (objInfo :: objInfos) = lastNameOr objInfo.Name objInfos := by
  unfold lastNameOr
  cases objInfos with
  | nil => simp
  | cons o os =>
    rw [List.getLast?_cons_cons]
    cases hl : (o :: os).getLast? with
    | none => simp at hl
    | some x => rfl

/-- The result built from `objInfos`: the flag is kept, the marker is the last
name, the objects are the non-directories that need healing and the prefixes the
directories, both in order. -/
theorem foldl_healStep (pkg : Package) (xl : xlObjects) (bucket : String)
    (objInfos : List ObjectInfo) :
    ∀ result : ListObjectsInfo,
      objInfos.foldl (healStep pkg xl bucket) result =
        { IsTruncated := result.IsTruncated
          NextMarker := lastNameOr result.NextMarker objInfos
          Objects := result.Objects ++
            (objInfos.filter fun o => !o.IsDir && needsHeal pkg xl bucket o).map
              (healedInfo pkg xl bucket)
          Prefixes := result.Prefixes ++
            (objInfos.filter fun o => o.IsDir).map fun o => o.Name } := by
  induction objInfos with
  | nil => intro result; simp [lastNameOr]
  | cons o os ih =>
    intro result
    rw [List.foldl_cons, ih, healStep_eq, lastNameOr_cons]
    simp only [List.filter_cons, List.filter_nil]
    cases hd : o.IsDir <;> cases hh : needsHeal pkg xl bucket o <;> simp

/-! ## The walk loop of `listObjectsHeal` (lines 100-140) -/

theorem resolvedInfos_cons_resolved {pkg : Package} {xl : xlObjects} {bucket : String}
    {r : treeWalkResult} {objInfo : ObjectInfo} (rs : List treeWalkResult)
    (h : resolveEntry pkg xl bucket r.entry = .resolved objInfo) :
    resolvedInfos pkg xl bucket (r :: rs) = objInfo :: resolvedInfos pkg xl bucket rs := by
  simp [resolvedInfos, List.filterMap_cons, h]

theorem resolvedInfos_cons_skipped {pkg : Package} {xl : xlObjects} {bucket : String}
    {r : treeWalkResult} (rs : List treeWalkResult)
    (h : resolveEntry pkg xl bucket r.entry = .skipped) :
    resolvedInfos pkg xl bucket (r :: rs) = resolvedInfos pkg xl bucket rs := by
  simp [resolvedInfos, List.filterMap_cons, h]

theorem endSeen_cons_of_not_end {pkg : Package} {xl : xlObjects} {bucket : String}
    {r : treeWalkResult} (rs : List treeWalkResult)
    (h : r.end_ = false ∨ resolveEntry pkg xl bucket r.entry = .skipped) :
    endSeen pkg xl bucket (r :: rs) = endSeen pkg xl bucket rs := by
  unfold endSeen
  cases rs with
  | nil =>
    rcases h with h | h
    · simp [h]
    · simp [h]
  | cons r2 rs2 => simp [List.getLast?_cons_cons]

/-- What is known when the loop is left at its end with `objInfos`, `eof`,
`nextMarker` and the channel `rest`: the channel delivered `consumed` and still
holds `rest`; `objInfos` grew by the entries of `consumed` that resolve, none of
which failed; `nextMarker` is the last resolved name; the count stays within
`maxKeys`; and `eof` is set exactly when the channel was found closed with room
left in the page or the last result read carried the end flag. -/
theorem walkLoop_page (pkg : Package) (xl : xlObjects) (bucket prefix_ : String)
    (maxKeys : Int) :
    ∀ (ch : List treeWalkResult) (i : Int) (acc : List ObjectInfo) (nm : String)
      (objInfos : List ObjectInfo) (eof : Bool) (nextMarker : String)
      (rest : List treeWalkResult),
      walkLoop pkg xl bucket prefix_ maxKeys ch i acc nm = .page objInfos eof nextMarker rest →
      ∃ consumed : List treeWalkResult,
        ch = consumed ++ rest ∧
        (∀ r ∈ consumed, r.err = none ∧ ∀ e, resolveEntry pkg xl bucket r.entry ≠ .failed e) ∧
        objInfos = acc ++ resolvedInfos pkg xl bucket consumed ∧
        nextMarker = lastNameOr nm (resolvedInfos pkg xl bucket consumed) ∧
        (eof = false → maxKeys ≤ i + (resolvedInfos pkg xl bucket consumed).length) ∧
        (i ≤ maxKeys → i + (resolvedInfos pkg xl bucket consumed).length ≤ maxKeys) ∧
        (eof = true ↔
          (rest = [] ∧ i + (resolvedInfos pkg xl bucket consumed).length < maxKeys) ∨
            endSeen pkg xl bucket consumed = true) ∧
        (∀ front r, consumed = front ++ [r] →
          i + (resolvedInfos pkg xl bucket front).length < maxKeys) := by
  intro ch
  induction ch with
  | nil =>
    intro i acc nm objInfos eof nextMarker rest h
    unfold walkLoop at h
    by_cases hlt : i < maxKeys
    · simp only [hlt, if_true, LoopExit.page.injEq] at h
      obtain ⟨h1, h2, h3, h4⟩ := h
      subst h1 h2 h3 h4
      refine ⟨[], rfl, ?_, ?_, ?_, ?_, ?_, ?_, ?_⟩
      · intro r hr; simp at hr
      · simp [resolvedInfos]
      · simp [resolvedInfos, lastNameOr]
      · intro h; simp at h
      · intro _; simp [resolvedInfos]; omega
      · simp [resolvedInfos, hlt]
      · intro front r2 hf
        simp at hf
    · simp only [hlt, if_false, LoopExit.page.injEq] at h
      obtain ⟨h1, h2, h3, h4⟩ := h
      subst h1 h2 h3 h4
      refine ⟨[], rfl, ?_, ?_, ?_, ?_, ?_, ?_, ?_⟩
      · intro r hr; simp at hr
      · simp [resolvedInfos]
      · simp [resolvedInfos, lastNameOr]
      · intro _; simp [resolvedInfos]; omega
      · intro h; simp [resolvedInfos]; exact h
      · simp [resolvedInfos, hlt, endSeen]
      · intro front r2 hf
        simp at hf
  | cons r ch ih =>
    intro i acc nm objInfos eof nextMarker rest h
    unfold walkLoop at h
    by_cases hlt : i < maxKeys
    · simp only [hlt, if_true] at h
      cases herr : r.err with
      | some e =>
        rw [herr] at h
        simp only at h
        split at h <;> simp at h
      | none =>
        rw [herr] at h
        simp only at h
        cases hres : resolveEntry pkg xl bucket r.entry with
        | skipped =>
          rw [hres] at h
          simp only at h
          obtain ⟨consumed, hc1, hc2, hc3, hc4, hc5, hc6, hc7, hc8⟩ := ih i acc nm _ _ _ _ h
          refine ⟨r :: consumed, ?_, ?_, ?_, ?_, ?_, ?_, ?_, ?_⟩
          · rw [hc1]; rfl
          · intro r2 hr2
            rcases List.mem_cons.1 hr2 with hr2 | hr2
            · subst hr2
              exact ⟨herr, fun e he => by rw [hres] at he; cases he⟩
            · exact hc2 r2 hr2
          · rw [resolvedInfos_cons_skipped _ hres]; exact hc3
          · rw [resolvedInfos_cons_skipped _ hres]; exact hc4
          · rw [resolvedInfos_cons_skipped _ hres]; exact hc5
          · rw [resolvedInfos_cons_skipped _ hres]; exact hc6
          · rw [resolvedInfos_cons_skipped _ hres, endSeen_cons_of_not_end _ (Or.inr hres)]
            exact hc7
          · intro front r2 hf
            cases front with
            | nil => simp [resolvedInfos]; exact hlt
            | cons a t =>
              simp only [List.cons_append, List.cons.injEq] at hf
              obtain ⟨ha, ht⟩ := hf
              subst ha
              rw [resolvedInfos_cons_skipped _ hres]
              exact hc8 t r2 ht
        | failed e =>
          rw [hres] at h
          simp at h
        | resolved o =>
          rw [hres] at h
          simp only at h
          by_cases hend : r.end_ = true
          · simp only [hend, if_true, LoopExit.page.injEq] at h
            obtain ⟨h1, h2, h3, h4⟩ := h
            subst h1 h2 h3 h4
            refine ⟨[r], rfl, ?_, ?_, ?_, ?_, ?_, ?_, ?_⟩
            · intro r2 hr2
              rw [List.mem_singleton] at hr2
              subst hr2
              exact ⟨herr, fun e he => by rw [hres] at he; cases he⟩
            · rw [resolvedInfos_cons_resolved _ hres]; simp [resolvedInfos]
            · rw [resolvedInfos_cons_resolved _ hres]; simp [resolvedInfos, lastNameOr]
            · intro h; simp at h
            · intro _
              rw [resolvedInfos_cons_resolved _ hres]
              simp [resolvedInfos]
              omega
            · simp [endSeen, hend, hres]
            · intro front r2 hf
              cases front with
              | nil => simp [resolvedInfos]; exact hlt
              | cons a t => simp at hf
          · have hend2 : r.end_ = false := by simpa using hend
            simp only [hend2, Bool.false_eq_true, if_false] at h
            obtain ⟨consumed, hc1, hc2, hc3, hc4, hc5, hc6, hc7, hc8⟩ := ih (i + 1) _ _ _ _ _ _ h
            refine ⟨r :: consumed, ?_, ?_, ?_, ?_, ?_, ?_, ?_, ?_⟩
            · rw [hc1]; rfl
            · intro r2 hr2
              rcases List.mem_cons.1 hr2 with hr2 | hr2
              · subst hr2
                exact ⟨herr, fun e he => by rw [hres] at he; cases he⟩
              · exact hc2 r2 hr2
            · rw [resolvedInfos_cons_resolved _ hres, hc3]; simp
            · rw [resolvedInfos_cons_resolved _ hres, lastNameOr_cons]; exact hc4
            · intro he
              have := hc5 he
              rw [resolvedInfos_cons_resolved _ hres]
              simp only [List.length_cons, Nat.cast_add, Nat.cast_one]
              omega
            · intro _
              have := hc6 (by omega)
              rw [resolvedInfos_cons_resolved _ hres]
              simp only [List.length_cons, Nat.cast_add, Nat.cast_one]
              omega
            · rw [resolvedInfos_cons_resolved _ hres, endSeen_cons_of_not_end _ (Or.inl hend2),
                hc7]
              simp only [List.length_cons, Nat.cast_add, Nat.cast_one]
              constructor
              · rintro (⟨ha, hb⟩ | hb)
                · exact Or.inl ⟨ha, by omega⟩
                · exact Or.inr hb
              · rintro (⟨ha, hb⟩ | hb)
                · exact Or.inl ⟨ha, by omega⟩
                · exact Or.inr hb
            · intro front r2 hf
              cases front with
              | nil => simp [resolvedInfos]; exact hlt
              | cons a t =>
                simp only [List.cons_append, List.cons.injEq] at hf
                obtain ⟨ha, ht⟩ := hf
                subst ha
                rw [resolvedInfos_cons_resolved _ hres]
                have := hc8 t r2 ht
                simp only [List.length_cons, Nat.cast_add, Nat.cast_one]
                omega
    · simp only [hlt, if_false, LoopExit.page.injEq] at h
      obtain ⟨h1, h2, h3, h4⟩ := h
      subst h1 h2 h3 h4
      refine ⟨[], rfl, ?_, ?_, ?_, ?_, ?_, ?_, ?_⟩
      · intro r hr; simp at hr
      · simp [resolvedInfos]
      · simp [resolvedInfos, lastNameOr]
      · intro _; simp [resolvedInfos]; omega
      · intro h; simp [resolvedInfos]; exact h
      · simp [resolvedInfos, endSeen]
      · intro front r2 hf
        simp at hf

theorem not_failed_of_lookupFails {pkg : Package} {xl : xlObjects} {bucket entry : String}
    (h : lookupFails pkg xl bucket entry = false) (e : GoError) :
    resolveEntry pkg xl bucket entry ≠ .failed e := by
  intro he
  simp [lookupFails, he] at h

theorem walkLoop_no_return (pkg : Package) (xl : xlObjects) (bucket prefix_ : String)
    (maxKeys : Int) :
    ∀ (ch : List treeWalkResult),
      (∀ r ∈ ch, r.err = none ∧ ∀ e, resolveEntry pkg xl bucket r.entry ≠ .failed e) →
      ∀ (i : Int) (acc : List ObjectInfo) (nm : String),
        ∃ objInfos eof nextMarker rest,
          walkLoop pkg xl bucket prefix_ maxKeys ch i acc nm =
            .page objInfos eof nextMarker rest := by
  intro ch
  induction ch with
  | nil =>
    intro _ i acc nm
    unfold walkLoop
    by_cases hlt : i < maxKeys
    · exact ⟨acc, true, nm, [], by simp [hlt]⟩
    · exact ⟨acc, false, nm, [], by simp [hlt]⟩
  | cons r ch ih =>
    intro hne i acc nm
    have hr := hne r (List.mem_cons_self _ _)
    have hch : ∀ r2 ∈ ch, r2.err = none ∧ ∀ e, resolveEntry pkg xl bucket r2.entry ≠ .failed e :=
      fun r2 h2 => hne r2 (List.mem_cons_of_mem _ h2)
    unfold walkLoop
    by_cases hlt : i < maxKeys
    · simp only [hlt, if_true, hr.1]
      cases hres : resolveEntry pkg xl bucket r.entry with
      | skipped => exact ih hch i acc nm
      | failed e => exact absurd hres (hr.2 e)
      | resolved o =>
        simp only
        by_cases hend : r.end_ = true
        · exact ⟨acc ++ [o], true, o.Name, ch, by simp [hend]⟩
        · have hend2 : r.end_ = false := by simpa using hend
          simp only [hend2, Bool.false_eq_true, if_false]
          exact ih hch (i + 1) (acc ++ [o]) o.Name
    · exact ⟨acc, false, nm, r :: ch, by simp [hlt]⟩

theorem firstResolved_nil (pkg : Package) (xl : xlObjects) (bucket : String) (k : Nat) :
    firstResolved pkg xl bucket k [] = [] := by
  simp [firstResolved, resolvedFlagged, untilEnd]

theorem firstResolved_zero (pkg : Package) (xl : xlObjects) (bucket : String)
    (ch : List treeWalkResult) : firstResolved pkg xl bucket 0 ch = [] := by
  simp [firstResolved]

theorem firstResolved_cons_skipped {pkg : Package} {xl : xlObjects} {bucket : String}
    {r : treeWalkResult} (k : Nat) (ch : List treeWalkResult)
    (h : resolveEntry pkg xl bucket r.entry = .skipped) :
    firstResolved pkg xl bucket k (r :: ch) = firstResolved pkg xl bucket k ch := by
  simp [firstResolved, resolvedFlagged, List.filterMap_cons, h]

theorem firstResolved_cons_end {pkg : Package} {xl : xlObjects} {bucket : String}
    {r : treeWalkResult} {o : ObjectInfo} (k : Nat) (ch : List treeWalkResult)
    (h : resolveEntry pkg xl bucket r.entry = .resolved o) (hend : r.end_ = true) :
    firstResolved pkg xl bucket (k + 1) (r :: ch) = [o] := by
  simp [firstResolved, resolvedFlagged, List.filterMap_cons, h, hend, untilEnd]

theorem firstResolved_cons_more {pkg : Package} {xl : xlObjects} {bucket : String}
    {r : treeWalkResult} {o : ObjectInfo} (k : Nat) (ch : List treeWalkResult)
    (h : resolveEntry pkg xl bucket r.entry = .resolved o) (hend : r.end_ = false) :
    firstResolved pkg xl bucket (k + 1) (r :: ch) = o :: firstResolved pkg xl bucket k ch := by
  simp [firstResolved, resolvedFlagged, List.filterMap_cons, h, hend, untilEnd]

/-- On a walk without error results and without failing lookups the loop
gathers the first `maxKeys - i` entries that resolve, up to the end of the walk. -/
theorem walkLoop_firstResolved (pkg : Package) (xl : xlObjects) (bucket prefix_ : String)
    (maxKeys : Int) :
    ∀ (ch : List treeWalkResult) (i : Int) (acc : List ObjectInfo) (nm : String)
      (objInfos : List ObjectInfo) (eof : Bool) (nextMarker : String)
      (rest : List treeWalkResult),
      walkLoop pkg xl bucket prefix_ maxKeys ch i acc nm = .page objInfos eof nextMarker rest →
      objInfos = acc ++ firstResolved pkg xl bucket (maxKeys - i).toNat ch := by
  intro ch
  induction ch with
  | nil =>
    intro i acc nm objInfos eof nextMarker rest h
    unfold walkLoop at h
    rw [firstResolved_nil]
    split at h <;> simp only [LoopExit.page.injEq] at h <;> simp [h.1.symm]
  | cons r ch ih =>
    intro i acc nm objInfos eof nextMarker rest h
    unfold walkLoop at h
    by_cases hlt : i < maxKeys
    · simp only [hlt, if_true] at h
      obtain ⟨k, hk⟩ : ∃ k : Nat, (maxKeys - i).toNat = k + 1 ∧ (maxKeys - (i + 1)).toNat = k :=
        ⟨(maxKeys - (i + 1)).toNat, by omega, rfl⟩
      cases herr : r.err with
      | some e =>
        rw [herr] at h
        simp only at h
        split at h <;> simp at h
      | none =>
        rw [herr] at h
        simp only at h
        cases hres : resolveEntry pkg xl bucket r.entry with
        | skipped =>
          rw [hres] at h
          simp only at h
          rw [firstResolved_cons_skipped _ _ hres]
          exact ih i acc nm _ _ _ _ h
        | failed e =>
          rw [hres] at h
          simp at h
        | resolved o =>
          rw [hres] at h
          simp only at h
          by_cases hend : r.end_ = true
          · simp only [hend, if_true, LoopExit.page.injEq] at h
            rw [hk.1, firstResolved_cons_end _ _ hres hend]
            exact h.1.symm
          · have hend2 : r.end_ = false := by simpa using hend
            simp only [hend2, Bool.false_eq_true, if_false] at h
            rw [hk.1, firstResolved_cons_more _ _ hres hend2]
            have := ih (i + 1) _ _ _ _ _ _ h
            rw [hk.2] at this
            rw [this]
            simp
    · simp only [hlt, if_false, LoopExit.page.injEq] at h
      have h0 : (maxKeys - i).toNat = 0 := by omega
      rw [h0, firstResolved_zero]
      simp [h.1.symm]

/-- A page of `k1` that is left without `eof` is a stage of the page of
`k1 + k2`: the longer loop goes on from where the shorter one stopped. -/
theorem walkLoop_extend (pkg : Package) (xl : xlObjects) (bucket prefix_ : String)
    (k1 k2 : Int) (hk2 : 0 ≤ k2) :
    ∀ (ch : List treeWalkResult) (i : Int) (acc : List ObjectInfo) (nm : String)
      (objInfos : List ObjectInfo) (nextMarker : String) (rest : List treeWalkResult),
      i ≤ k1 →
      walkLoop pkg xl bucket prefix_ k1 ch i acc nm = .page objInfos false nextMarker rest →
      walkLoop pkg xl bucket prefix_ (k1 + k2) ch i acc nm =
        walkLoop pkg xl bucket prefix_ (k1 + k2) rest k1 objInfos nextMarker := by
  intro ch
  induction ch with
  | nil =>
    intro i acc nm objInfos nextMarker rest hi h
    unfold walkLoop at h
    by_cases hlt : i < k1
    · simp [hlt] at h
    · simp only [hlt, if_false, LoopExit.page.injEq] at h
      obtain ⟨h1, _, h3, h4⟩ := h
      have : i = k1 := by omega
      subst h1 h3 h4 this
      rfl
  | cons r ch ih =>
    intro i acc nm objInfos nextMarker rest hi h
    by_cases hlt : i < k1
    · have hlt2 : i < k1 + k2 := by omega
      unfold walkLoop at h
      simp only [hlt, if_true] at h
      rw [walkLoop]
      simp only [hlt2, if_true]
      cases herr : r.err with
      | some e =>
        rw [herr] at h
        simp only at h
        split at h <;> simp at h
      | none =>
        rw [herr] at h
        simp only at h ⊢
        cases hres : resolveEntry pkg xl bucket r.entry with
        | skipped =>
          rw [hres] at h
          simp only at h ⊢
          exact ih i acc nm _ _ _ hi h
        | failed e =>
          rw [hres] at h
          simp at h
        | resolved o =>
          rw [hres] at h
          simp only at h ⊢
          by_cases hend : r.end_ = true
          · simp [hend] at h
          · have hend2 : r.end_ = false := by simpa using hend
            simp only [hend2, Bool.false_eq_true, if_false] at h ⊢
            exact ih (i + 1) _ _ _ _ _ (by omega) h
    · unfold walkLoop at h
      simp only [hlt, if_false, LoopExit.page.injEq] at h
      obtain ⟨h1, _, h3, h4⟩ := h
      have : i = k1 := by omega
      subst h1 h3 h4 this
      rfl

/-- The loop started at count `i + d` for `k + d` keys with `front ++ acc`
gathered does what the loop started at `i` for `k` keys with `acc` does, in
front of which `front` is kept. -/
theorem walkLoop_shift (pkg : Package) (xl : xlObjects) (bucket prefix_ : String)
    (k d : Int) (front : List ObjectInfo) :
    ∀ (ch : List treeWalkResult) (i : Int) (acc : List ObjectInfo) (nmA nmB : String),
      (∀ objInfos eof nextMarker rest,
        walkLoop pkg xl bucket prefix_ k ch i acc nmB = .page objInfos eof nextMarker rest →
        ∃ nextMarker2,
          walkLoop pkg xl bucket prefix_ (k + d) ch (i + d) (front ++ acc) nmA =
            .page (front ++ objInfos) eof nextMarker2 rest) ∧
      (∀ result err,
        walkLoop pkg xl bucket prefix_ k ch i acc nmB = .returned result err →
        walkLoop pkg xl bucket prefix_ (k + d) ch (i + d) (front ++ acc) nmA =
          .returned result err) := by
  intro ch
  induction ch with
  | nil =>
    intro i acc nmA nmB
    have hiff : i + d < k + d ↔ i < k := by omega
    unfold walkLoop
    by_cases hlt : i < k
    · simp only [hlt, hiff, if_true]
      refine ⟨?_, fun _ _ h => by cases h⟩
      intro objInfos eof nextMarker rest h
      simp only [LoopExit.page.injEq] at h
      obtain ⟨h1, h2, _, h4⟩ := h
      subst h1 h2 h4
      exact ⟨nmA, rfl⟩
    · simp only [hlt, hiff, if_false]
      refine ⟨?_, fun _ _ h => by cases h⟩
      intro objInfos eof nextMarker rest h
      simp only [LoopExit.page.injEq] at h
      obtain ⟨h1, h2, _, h4⟩ := h
      subst h1 h2 h4
      exact ⟨nmA, rfl⟩
  | cons r ch ih =>
    intro i acc nmA nmB
    have hiff : i + d < k + d ↔ i < k := by omega
    rw [walkLoop, walkLoop]
    by_cases hlt : i < k
    · simp only [hlt, hiff, if_true]
      cases herr : r.err with
      | some e =>
        simp only
        by_cases he : e = GoError.errFileNotFound
        · simp [he]
        · simp [he]
      | none =>
        simp only
        cases hres : resolveEntry pkg xl bucket r.entry with
        | skipped => exact ih i acc nmA nmB
        | failed e => simp
        | resolved o =>
          simp only
          by_cases hend : r.end_ = true
          · simp [hend]
          · have hend2 : r.end_ = false := by simpa using hend
            simp only [hend2, Bool.false_eq_true, if_false]
            have := ih (i + 1) (acc ++ [o]) o.Name o.Name
            have e1 : i + 1 + d = i + d + 1 := by omega
            rw [e1, ← List.append_assoc] at this
            exact this
    · simp [hlt, hiff]

/-! ## The call as a whole, and the pool -/

theorem listObjectsHeal_of_page (pkg : Package) (xl : xlObjects) (st : xlState)
    (bucket prefix_ marker delimiter : String) (maxKeys : Int)
    {objInfos : List ObjectInfo} {eof : Bool} {nextMarker : String}
    {rest : List treeWalkResult}
    (h : walkLoop pkg xl bucket prefix_ maxKeys
      (acquireWalk pkg xl st bucket prefix_ marker delimiter).1.resultCh 0 [] "" =
        .page objInfos eof nextMarker rest) :
    listObjectsHeal pkg xl st bucket prefix_ marker delimiter maxKeys =
      ((objInfos.foldl (healStep pkg xl bucket) { IsTruncated := !eof }, none),
        if eof = false then
          { (acquireWalk pkg xl st bucket prefix_ marker delimiter).2 with
            listPool := (acquireWalk pkg xl st bucket prefix_ marker delimiter).2.listPool.Set
              ⟨bucket, recursiveOf delimiter, nextMarker, prefix_, true⟩
              ⟨rest, (acquireWalk pkg xl st bucket prefix_ marker delimiter).1.endWalkCh⟩ }
        else (acquireWalk pkg xl st bucket prefix_ marker delimiter).2) := by
  unfold listObjectsHeal
  simp only [h]
  cases eof <;> simp

theorem listObjectsHeal_of_returned (pkg : Package) (xl : xlObjects) (st : xlState)
    (bucket prefix_ marker delimiter : String) (maxKeys : Int)
    {result : ListObjectsInfo} {err : Option GoError}
    (h : walkLoop pkg xl bucket prefix_ maxKeys
      (acquireWalk pkg xl st bucket prefix_ marker delimiter).1.resultCh 0 [] "" =
        .returned result err) :
    listObjectsHeal pkg xl st bucket prefix_ marker delimiter maxKeys =
      ((result, err), (acquireWalk pkg xl st bucket prefix_ marker delimiter).2) := by
  unfold listObjectsHeal
  simp only [h]

/-- The loop returns from inside with the zero `ListObjectsInfo` only. -/
theorem walkLoop_returned_empty (pkg : Package) (xl : xlObjects) (bucket prefix_ : String)
    (maxKeys : Int) :
    ∀ (ch : List treeWalkResult) (i : Int) (acc : List ObjectInfo) (nm : String)
      (result : ListObjectsInfo) (err : Option GoError),
      walkLoop pkg xl bucket prefix_ maxKeys ch i acc nm = .returned result err →
      result = {} := by
  intro ch
  induction ch with
  | nil =>
    intro i acc nm result err h
    unfold walkLoop at h
    split at h <;> simp at h
  | cons r ch ih =>
    intro i acc nm result err h
    unfold walkLoop at h
    by_cases hlt : i < maxKeys
    · simp only [hlt, if_true] at h
      cases herr : r.err with
      | some e =>
        rw [herr] at h
        simp only at h
        split at h <;> simp only [LoopExit.returned.injEq] at h <;> exact h.1.symm
      | none =>
        rw [herr] at h
        simp only at h
        cases hres : resolveEntry pkg xl bucket r.entry with
        | skipped =>
          rw [hres] at h
          exact ih _ _ _ _ _ h
        | failed e =>
          rw [hres] at h
          simp only [LoopExit.returned.injEq] at h
          exact h.1.symm
        | resolved o =>
          rw [hres] at h
          simp only at h
          by_cases hend : r.end_ = true
          · simp [hend] at h
          · have hend2 : r.end_ = false := by simpa using hend
            simp only [hend2, Bool.false_eq_true, if_false] at h
            exact ih _ _ _ _ _ h
    · simp [hlt] at h

/-- A walk stored under a key is the walk released for that key. -/
theorem release_set (pool : treeWalkPool) (params : listParams) (walk : treeWalk) :
    (pool.Set params walk).Release params =
      (some walk, pool.filter fun kv => !decide (kv.1 = params)) := by
  unfold treeWalkPool.Set treeWalkPool.Release
  simp [List.lookup, List.filter_cons, List.filter_filter]

theorem length_filter_add_le (objInfos : List ObjectInfo) (p q : ObjectInfo → Bool)
    (hpq : ∀ o, p o = true → q o = false) :
    (objInfos.filter p).length + (objInfos.filter q).length ≤ objInfos.length := by
  induction objInfos with
  | nil => simp
  | cons o os ih =>
    simp only [List.filter_cons, List.length_cons]
    cases hp : p o with
    | true =>
      simp only [hpq o hp, if_true, Bool.false_eq_true, if_false, List.length_cons]
      omega
    | false =>
      simp only [Bool.false_eq_true, if_false]
      split
      · simp only [List.length_cons]; omega
      · omega

theorem resolvedInfos_append (pkg : Package) (xl : xlObjects) (bucket : String)
    (a b : List treeWalkResult) :
    resolvedInfos pkg xl bucket (a ++ b) =
      resolvedInfos pkg xl bucket a ++ resolvedInfos pkg xl bucket b := by
  simp [resolvedInfos, List.filterMap_append]

/-! ## Properties of the paginated heal listing -/

/-- C4.  For every walk without error results on which no lookup fails with
anything but not-found, and page sizes `k1, k2 >= 1`: if a first
`listObjectsHeal` call with `maxKeys = k1` returns `IsTruncated = true`, then a
second call with the same bucket, prefix and delimiter and with the first call's
`NextMarker` as marker reads from the walk the first call parked in the pool (the
rest of the first call's channel, with the same end-walk channel; no channel is
made, so no walk is started); no call returns an error; and the objects, the
prefixes and the truncation flag of a single call with `maxKeys = k1 + k2` are
the two calls' objects, one list after the other, their prefixes likewise, and
the second call's flag. -/
theorem C4_pagination_resumes (pkg : Package) (xl : xlObjects) (st : xlState)
    (bucket prefix_ marker delimiter : String) (k1 k2 : Int) (h1 : 1 ≤ k1) (h2 : 1 ≤ k2)
    (hne : ∀ r ∈ (acquireWalk pkg xl st bucket prefix_ marker delimiter).1.resultCh,
      r.err = none ∧ lookupFails pkg xl bucket r.entry = false)
    (ht : (listObjectsHeal pkg xl st bucket prefix_ marker delimiter k1).1.1.IsTruncated =
      true) :
    (∃ (parked : treeWalk) (consumed : List treeWalkResult),
      (acquireWalk pkg xl st bucket prefix_ marker delimiter).1.resultCh =
        consumed ++ parked.resultCh ∧
      parked.endWalkCh = (acquireWalk pkg xl st bucket prefix_ marker delimiter).1.endWalkCh ∧
      (listObjectsHeal pkg xl st bucket prefix_ marker delimiter k1).2.listPool =
        (acquireWalk pkg xl st bucket prefix_ marker delimiter).2.listPool.Set
          (poolKey bucket delimiter
            (listObjectsHeal pkg xl st bucket prefix_ marker delimiter k1).1.1.NextMarker
            prefix_) parked ∧
      (acquireWalk pkg xl
        (listObjectsHeal pkg xl st bucket prefix_ marker delimiter k1).2 bucket prefix_
        (listObjectsHeal pkg xl st bucket prefix_ marker delimiter k1).1.1.NextMarker
        delimiter).1 = parked ∧
      (acquireWalk pkg xl
        (listObjectsHeal pkg xl st bucket prefix_ marker delimiter k1).2 bucket prefix_
        (listObjectsHeal pkg xl st bucket prefix_ marker delimiter k1).1.1.NextMarker
        delimiter).2.chans =
        (listObjectsHeal pkg xl st bucket prefix_ marker delimiter k1).2.chans) ∧
    (listObjectsHeal pkg xl st bucket prefix_ marker delimiter k1).1.2 = none ∧
    (listObjectsHeal pkg xl
      (listObjectsHeal pkg xl st bucket prefix_ marker delimiter k1).2 bucket prefix_
      (listObjectsHeal pkg xl st bucket prefix_ marker delimiter k1).1.1.NextMarker
      delimiter k2).1.2 = none ∧
    (listObjectsHeal pkg xl st bucket prefix_ marker delimiter (k1 + k2)).1.2 = none ∧
    (listObjectsHeal pkg xl st bucket prefix_ marker delimiter (k1 + k2)).1.1.Objects =
      (listObjectsHeal pkg xl st bucket prefix_ marker delimiter k1).1.1.Objects ++
      (listObjectsHeal pkg xl
        (listObjectsHeal pkg xl st bucket prefix_ marker delimiter k1).2 bucket prefix_
        (listObjectsHeal pkg xl st bucket prefix_ marker delimiter k1).1.1.NextMarker
        delimiter k2).1.1.Objects ∧
    (listObjectsHeal pkg xl st bucket prefix_ marker delimiter (k1 + k2)).1.1.Prefixes =
      (listObjectsHeal pkg xl st bucket prefix_ marker delimiter k1).1.1.Prefixes ++
      (listObjectsHeal pkg xl
        (listObjectsHeal pkg xl st bucket prefix_ marker delimiter k1).2 bucket prefix_
        (listObjectsHeal pkg xl st bucket prefix_ marker delimiter k1).1.1.NextMarker
        delimiter k2).1.1.Prefixes ∧
    (listObjectsHeal pkg xl st bucket prefix_ marker delimiter (k1 + k2)).1.1.IsTruncated =
      (listObjectsHeal pkg xl
        (listObjectsHeal pkg xl st bucket prefix_ marker delimiter k1).2 bucket prefix_
        (listObjectsHeal pkg xl st bucket prefix_ marker delimiter k1).1.1.NextMarker
        delimiter k2).1.1.IsTruncated := by
  have hne2 : ∀ r ∈ (acquireWalk pkg xl st bucket prefix_ marker delimiter).1.resultCh,
      r.err = none ∧ ∀ e, resolveEntry pkg xl bucket r.entry ≠ .failed e :=
    fun r hr => ⟨(hne r hr).1, not_failed_of_lookupFails (hne r hr).2⟩
  -- the first page
  obtain ⟨P1, eof1, nm1, rest1, hloop1⟩ :=
    walkLoop_no_return pkg xl bucket prefix_ k1 _ hne2 0 [] ""
  have hfirst := listObjectsHeal_of_page pkg xl st bucket prefix_ marker delimiter k1 hloop1
  rw [foldl_healStep] at hfirst
  have heof1 : eof1 = false := by
    rw [hfirst] at ht
    simpa using ht
  subst heof1
  obtain ⟨consumed, hc1, _, hc3, hc4, _, _, _, _⟩ :=
    walkLoop_page pkg xl bucket prefix_ k1 _ _ _ _ _ _ _ _ hloop1
  simp only [List.nil_append] at hc3
  have hm : lastNameOr "" P1 = nm1 := by rw [hc4, hc3]
  simp only [if_true, Bool.not_false, hm] at hfirst
  -- the walk the second call obtains
  have hacq : acquireWalk pkg xl
      ({ (acquireWalk pkg xl st bucket prefix_ marker delimiter).2 with
        listPool := (acquireWalk pkg xl st bucket prefix_ marker delimiter).2.listPool.Set
          ⟨bucket, recursiveOf delimiter, nm1, prefix_, true⟩
          ⟨rest1, (acquireWalk pkg xl st bucket prefix_ marker delimiter).1.endWalkCh⟩ })
      bucket prefix_ nm1 delimiter =
      (⟨rest1, (acquireWalk pkg xl st bucket prefix_ marker delimiter).1.endWalkCh⟩,
        { (acquireWalk pkg xl st bucket prefix_ marker delimiter).2 with
          listPool := (acquireWalk pkg xl st bucket prefix_ marker delimiter).2.listPool.filter
            fun kv => !decide (kv.1 = ⟨bucket, recursiveOf delimiter, nm1, prefix_, true⟩) }) := by
    unfold acquireWalk
    simp only [release_set]
  -- the second page
  have hne3 : ∀ r ∈ rest1, r.err = none ∧ ∀ e, resolveEntry pkg xl bucket r.entry ≠ .failed e :=
    fun r hr => hne2 r (by rw [hc1]; exact List.mem_append_right _ hr)
  obtain ⟨P2, eof2, nm2, rest2, hloop2⟩ :=
    walkLoop_no_return pkg xl bucket prefix_ k2 _ hne3 0 [] ""
  have hloop2' : walkLoop pkg xl bucket prefix_ k2
      (acquireWalk pkg xl
        ({ (acquireWalk pkg xl st bucket prefix_ marker delimiter).2 with
          listPool := (acquireWalk pkg xl st bucket prefix_ marker delimiter).2.listPool.Set
            ⟨bucket, recursiveOf delimiter, nm1, prefix_, true⟩
            ⟨rest1, (acquireWalk pkg xl st bucket prefix_ marker delimiter).1.endWalkCh⟩ })
        bucket prefix_ nm1 delimiter).1.resultCh 0 [] "" = .page P2 eof2 nm2 rest2 := by
    rw [hacq]; exact hloop2
  have hsecond := listObjectsHeal_of_page pkg xl _ bucket prefix_ nm1 delimiter k2 hloop2'
  rw [foldl_healStep] at hsecond
  -- the single page
  have hext := walkLoop_extend pkg xl bucket prefix_ k1 k2 (by omega) _ 0 [] "" P1 nm1 rest1
    (by omega) hloop1
  obtain ⟨nm3, hshift⟩ :=
    (walkLoop_shift pkg xl bucket prefix_ k2 k1 P1 rest1 0 [] nm1 "").1 P2 eof2 nm2 rest2 hloop2
  have e1 : k2 + k1 = k1 + k2 := by omega
  rw [e1, zero_add, List.append_nil] at hshift
  have hloop3 := hext.trans hshift
  have hsingle := listObjectsHeal_of_page pkg xl st bucket prefix_ marker delimiter (k1 + k2)
    hloop3
  rw [foldl_healStep] at hsingle
  rw [hsingle, hfirst, hsecond]
  refine ⟨⟨⟨rest1, (acquireWalk pkg xl st bucket prefix_ marker delimiter).1.endWalkCh⟩,
    consumed, hc1, rfl, rfl, ?_, ?_⟩, rfl, rfl, rfl, ?_, ?_, rfl⟩
  · exact congrArg Prod.fst hacq
  · exact congrArg (fun x => x.2.chans) hacq
  · simp [List.filter_append]
  · simp [List.filter_append]

/-- C4 on a walk of `a`, `missing`, `d/`, `healthy`, `z` with pages of two and
one entries: the single page of three entries lists the objects of both. -/
theorem C4_pagination_resumes_witness :
    (listObjectsHeal
      (examplePackage [⟨"a", none, false⟩, ⟨"missing", none, false⟩, ⟨"d/", none, false⟩,
        ⟨"healthy", none, false⟩, ⟨"z", none, true⟩])
      exampleXL emptyState "bucket" "" "" "" (2 + 1)).1.1.Prefixes = ["d/"] :=
  (C4_pagination_resumes
    (examplePackage [⟨"a", none, false⟩, ⟨"missing", none, false⟩, ⟨"d/", none, false⟩,
      ⟨"healthy", none, false⟩, ⟨"z", none, true⟩])
    exampleXL emptyState "bucket" "" "" "" 2 1 (by decide) (by decide) (by decide)
    (by decide)).2.2.2.2.2.1.trans (by decide)

/-- C5.  For every `listObjectsHeal` call with `maxKeys >= 1` that leaves the
walk loop at its end (no error, no not-found walk result), with `objInfos` the
resolved entries of the page, `rest` what the channel still holds and `eof` the
loop's flag: `IsTruncated` is `!eof`; `eof` is set exactly when the channel was
found closed before the page was full or the page's last result carried the end
flag (on a walk whose end flag only comes with its last result: or any result
read carried it); `NextMarker` is the name of the last entry of `objInfos`,
listed or not; when `eof` is not set the state left is the one after the walk
was obtained with the walk (channel `rest` and its end-walk channel) stored in
the pool under `{bucket, recursive, NextMarker, prefix, heal = true}`, from
where it is released again; when `eof` is set the pool is as it was after the
walk was obtained. -/
theorem C5_truncation_and_pooling (pkg : Package) (xl : xlObjects) (st : xlState)
    (bucket prefix_ marker delimiter : String) (maxKeys : Int) (hk : 1 ≤ maxKeys)
    (objInfos : List ObjectInfo) (eof : Bool) (nextMarker : String)
    (rest : List treeWalkResult)
    (hloop : walkLoop pkg xl bucket prefix_ maxKeys
      (acquireWalk pkg xl st bucket prefix_ marker delimiter).1.resultCh 0 [] "" =
        .page objInfos eof nextMarker rest) :
    (listObjectsHeal pkg xl st bucket prefix_ marker delimiter maxKeys).1.2 = none ∧
    (listObjectsHeal pkg xl st bucket prefix_ marker delimiter maxKeys).1.1.IsTruncated =
      !eof ∧
    (listObjectsHeal pkg xl st bucket prefix_ marker delimiter maxKeys).1.1.NextMarker =
      lastNameOr "" objInfos ∧
    (∃ consumed : List treeWalkResult,
      (acquireWalk pkg xl st bucket prefix_ marker delimiter).1.resultCh = consumed ++ rest ∧
      objInfos = resolvedInfos pkg xl bucket consumed ∧
      (eof = true ↔
        (rest = [] ∧ (objInfos.length : Int) < maxKeys) ∨
          endSeen pkg xl bucket consumed = true) ∧
      ((∀ front r back,
          (acquireWalk pkg xl st bucket prefix_ marker delimiter).1.resultCh =
            front ++ r :: back → r.end_ = true → back = []) →
        (eof = true ↔
          (rest = [] ∧ (objInfos.length : Int) < maxKeys) ∨
            ∃ r ∈ consumed, r.end_ = true))) ∧
    (eof = false →
      objInfos ≠ [] ∧
      (listObjectsHeal pkg xl st bucket prefix_ marker delimiter maxKeys).2 =
        { (acquireWalk pkg xl st bucket prefix_ marker delimiter).2 with
          listPool := (acquireWalk pkg xl st bucket prefix_ marker delimiter).2.listPool.Set
            (poolKey bucket delimiter
              (listObjectsHeal pkg xl st bucket prefix_ marker delimiter maxKeys).1.1.NextMarker
              prefix_)
            ⟨rest, (acquireWalk pkg xl st bucket prefix_ marker delimiter).1.endWalkCh⟩ } ∧
      ((listObjectsHeal pkg xl st bucket prefix_ marker delimiter maxKeys).2.listPool.Release
        (poolKey bucket delimiter
          (listObjectsHeal pkg xl st bucket prefix_ marker delimiter maxKeys).1.1.NextMarker
          prefix_)).1 =
        some ⟨rest, (acquireWalk pkg xl st bucket prefix_ marker delimiter).1.endWalkCh⟩) ∧
    (eof = true →
      (listObjectsHeal pkg xl st bucket prefix_ marker delimiter maxKeys).2 =
        (acquireWalk pkg xl st bucket prefix_ marker delimiter).2) := by
  obtain ⟨consumed, hc1, hc2, hc3, hc4, hc5, _, hc7, hc8⟩ :=
    walkLoop_page pkg xl bucket prefix_ maxKeys _ _ _ _ _ _ _ _ hloop
  simp only [List.nil_append, zero_add] at hc3 hc5 hc7 hc8
  have hmarker : nextMarker = lastNameOr "" objInfos := by rw [hc4, hc3]
  rw [listObjectsHeal_of_page pkg xl st bucket prefix_ marker delimiter maxKeys hloop,
    foldl_healStep]
  refine ⟨rfl, rfl, rfl, ⟨consumed, hc1, hc3, ?_, ?_⟩, ?_, ?_⟩
  · rw [hc3]; exact hc7
  · intro hwf
    rw [hc3, hc7]
    constructor
    · rintro (h | h)
      · exact Or.inl h
      · right
        unfold endSeen at h
        cases hl : consumed.getLast? with
        | none => rw [hl] at h; simp at h
        | some r =>
          rw [hl] at h
          simp only [Bool.and_eq_true] at h
          exact ⟨r, List.mem_of_getLast?_eq_some hl, h.1⟩
    · rintro (h | ⟨r, hr, hend⟩)
      · exact Or.inl h
      · obtain ⟨front, back, hfb⟩ := List.append_of_mem hr
        have hch : (acquireWalk pkg xl st bucket prefix_ marker delimiter).1.resultCh =
            front ++ r :: (back ++ rest) := by
          rw [hc1, hfb]; simp
        have hnil := hwf front r (back ++ rest) hch hend
        have hback : back = [] := (List.append_eq_nil.1 hnil).1
        have hrest : rest = [] := (List.append_eq_nil.1 hnil).2
        subst hback
        have hbudget := hc8 front r hfb
        have hrmem := hc2 r hr
        cases hres : resolveEntry pkg xl bucket r.entry with
        | failed e => exact absurd hres (hrmem.2 e)
        | resolved o =>
          right
          rw [hfb]
          simp [endSeen, hend, hres]
        | skipped =>
          left
          refine ⟨hrest, ?_⟩
          rw [hfb, resolvedInfos_append, resolvedInfos_cons_skipped _ hres]
          simpa [resolvedInfos] using hbudget
  · intro he
    subst he
    have hlen := hc5 rfl
    have hne : objInfos ≠ [] := by
      intro h0
      rw [h0] at hc3
      rw [← hc3] at hlen
      simp at hlen
      omega
    refine ⟨hne, ?_, ?_⟩
    · simp [poolKey, hmarker]
    · simp only [if_true]
      rw [hmarker]
      exact congrArg Prod.fst (release_set _ _ _)
  · intro he
    subst he
    simp

/-- C5 on a walk of `a`, `healthy`, `d/`, `z` with `maxKeys = 2`: the page is
truncated, and its marker is `healthy`, an entry that is not listed. -/
theorem C5_truncation_and_pooling_witness :
    (listObjectsHeal
      (examplePackage [⟨"a", none, false⟩, ⟨"healthy", none, false⟩, ⟨"d/", none, false⟩,
        ⟨"z", none, true⟩])
      exampleXL emptyState "bucket" "" "" "" 2).1.1.NextMarker = "healthy" :=
  (C5_truncation_and_pooling
    (examplePackage [⟨"a", none, false⟩, ⟨"healthy", none, false⟩, ⟨"d/", none, false⟩,
      ⟨"z", none, true⟩])
    exampleXL emptyState "bucket" "" "" "" 2 (by decide)
    [{ Bucket := "bucket", Name := "a", ModTime := 7, Size := 1 },
     { Bucket := "bucket", Name := "healthy", ModTime := 7, Size := 1 }]
    false "healthy" [⟨"d/", none, false⟩, ⟨"z", none, true⟩] (by decide)).2.2.1.trans
    (by decide)

/-- C6, as stated, fails: the walk delivers the object `a`, which resolves and
needs healing, and then a result whose error is `errFileNotFound`; the call
succeeds (nil error) with the zero `ListObjectsInfo`, so `a` is not listed. -/
theorem C6_not_found_result_discards_resolved_objects :
    resolveEntry
      (examplePackage [⟨"a", none, false⟩, ⟨"", some .errFileNotFound, false⟩])
      exampleXL "bucket" "a" =
      .resolved { Bucket := "bucket", Name := "a", ModTime := 7, Size := 1 } ∧
    needsHeal (examplePackage [⟨"a", none, false⟩, ⟨"", some .errFileNotFound, false⟩])
      exampleXL "bucket" { Bucket := "bucket", Name := "a", ModTime := 7, Size := 1 } = true ∧
    listObjectsHeal (examplePackage [⟨"a", none, false⟩, ⟨"", some .errFileNotFound, false⟩])
      exampleXL emptyState "bucket" "" "" "" 2 = (({}, none), ⟨[], 1⟩) := by
  decide

/-- C6 (amended).  For every `listObjectsHeal` call that leaves the walk loop at
its end (it returns no error and read no walk result with an error), with
`objInfos` the entries of the page: `objInfos` are the entries read from the walk
that resolved, in walk order, and `result.Objects` is, in the same order, exactly
the non-directory entries of `objInfos` for which `xlShouldHeal` holds on the
metadata read for them, each with its name, modification time and size, with
`IsDir = false` and with the heal status `xlHealStat` of the same metadata. -/
theorem C6_heal_filter_exact (pkg : Package) (xl : xlObjects) (st : xlState)
    (bucket prefix_ marker delimiter : String) (maxKeys : Int)
    (objInfos : List ObjectInfo) (eof : Bool) (nextMarker : String)
    (rest : List treeWalkResult)
    (hloop : walkLoop pkg xl bucket prefix_ maxKeys
      (acquireWalk pkg xl st bucket prefix_ marker delimiter).1.resultCh 0 [] "" =
        .page objInfos eof nextMarker rest) :
    (listObjectsHeal pkg xl st bucket prefix_ marker delimiter maxKeys).1.2 = none ∧
    (∃ consumed : List treeWalkResult,
      (acquireWalk pkg xl st bucket prefix_ marker delimiter).1.resultCh = consumed ++ rest ∧
      objInfos = resolvedInfos pkg xl bucket consumed) ∧
    (listObjectsHeal pkg xl st bucket prefix_ marker delimiter maxKeys).1.1.Objects =
      (objInfos.filter fun o => !o.IsDir && needsHeal pkg xl bucket o).map
        (healedInfo pkg xl bucket) := by
  rw [listObjectsHeal_of_page pkg xl st bucket prefix_ marker delimiter maxKeys hloop,
    foldl_healStep]
  refine ⟨rfl, ?_, by simp⟩
  obtain ⟨consumed, hc1, _, hc3, _⟩ := walkLoop_page pkg xl bucket prefix_ maxKeys _ _ _ _ _ _ _ _ hloop
  exact ⟨consumed, hc1, by simpa using hc3⟩

/-- C6 (amended) on a walk of `a`, `healthy`, `d/` and `z` with pages of two
entries: only `a` is listed as an object of the first page. -/
theorem C6_heal_filter_exact_witness :
    (listObjectsHeal
      (examplePackage [⟨"a", none, false⟩, ⟨"healthy", none, false⟩, ⟨"d/", none, false⟩,
        ⟨"z", none, true⟩])
      exampleXL emptyState "bucket" "" "" "" 2).1.1.Objects =
      [{ Name := "a", ModTime := 7, Size := 1, IsDir := false,
         HealObjectInfo := some ⟨false, 1, 0, true⟩ }] :=
  (C6_heal_filter_exact
    (examplePackage [⟨"a", none, false⟩, ⟨"healthy", none, false⟩, ⟨"d/", none, false⟩,
      ⟨"z", none, true⟩])
    exampleXL emptyState "bucket" "" "" "" 2
    [{ Bucket := "bucket", Name := "a", ModTime := 7, Size := 1 },
     { Bucket := "bucket", Name := "healthy", ModTime := 7, Size := 1 }]
    false "healthy" [⟨"d/", none, false⟩, ⟨"z", none, true⟩] (by decide)).2.2.trans (by decide)

/-- C7, as stated, fails for `maxKeys = 0`: the call returns the zero
`ListObjectsInfo` and leaves the state alone, while the same request with
`maxKeys = maxObjectList` lists the object `a`. -/
theorem C7_zero_maxKeys_is_not_clamped :
    ListObjectsHeal (examplePackage [⟨"a", none, true⟩]) exampleXL emptyState
      "bucket" "" "" "" 0 = (({}, none), emptyState) ∧
    (ListObjectsHeal (examplePackage [⟨"a", none, true⟩]) exampleXL emptyState
      "bucket" "" "" "" (examplePackage [⟨"a", none, true⟩]).maxObjectList).1.1.Objects =
      [{ Name := "a", ModTime := 7, Size := 1, IsDir := false,
         HealObjectInfo := some ⟨false, 1, 0, true⟩ }] ∧
    ListObjectsHeal (examplePackage [⟨"a", none, true⟩]) exampleXL emptyState
      "bucket" "" "" "" 0 ≠
    ListObjectsHeal (examplePackage [⟨"a", none, true⟩]) exampleXL emptyState
      "bucket" "" "" "" (examplePackage [⟨"a", none, true⟩]).maxObjectList := by
  decide

/-- C7 (amended).  With a positive ceiling `maxObjectList`, for every request and
every `maxKeys` below zero or above the ceiling, `ListObjectsHeal` returns the
same results and leaves the same state as the same request with
`maxKeys = maxObjectList`. -/
theorem C7_maxKeys_clamped (pkg : Package) (xl : xlObjects) (st : xlState)
    (bucket prefix_ marker delimiter : String) (maxKeys : Int)
    (hceiling : 0 < pkg.maxObjectList)
    (hk : maxKeys < 0 ∨ pkg.maxObjectList < maxKeys) :
    ListObjectsHeal pkg xl st bucket prefix_ marker delimiter maxKeys =
      ListObjectsHeal pkg xl st bucket prefix_ marker delimiter pkg.maxObjectList := by
  have h0 : maxKeys ≠ 0 := by omega
  have h1 : pkg.maxObjectList ≠ 0 := by omega
  have h2 : maxKeys < 0 ∨ maxKeys > pkg.maxObjectList := hk
  have h3 : ¬ (pkg.maxObjectList < 0 ∨ pkg.maxObjectList > pkg.maxObjectList) := by omega
  unfold ListObjectsHeal
  simp only [h0, h1, h2, h3, if_true, if_false]

/-- C7 (amended) for `maxKeys = -1` and for `maxKeys = 1001` with the ceiling 1000. -/
theorem C7_maxKeys_clamped_witness :
    ListObjectsHeal (examplePackage [⟨"a", none, true⟩]) exampleXL emptyState
      "bucket" "" "" "" (-1) =
    ListObjectsHeal (examplePackage [⟨"a", none, true⟩]) exampleXL emptyState
      "bucket" "" "" "" 1000 ∧
    ListObjectsHeal (examplePackage [⟨"a", none, true⟩]) exampleXL emptyState
      "bucket" "" "" "" 1001 =
    ListObjectsHeal (examplePackage [⟨"a", none, true⟩]) exampleXL emptyState
      "bucket" "" "" "" 1000 :=
  ⟨C7_maxKeys_clamped (examplePackage [⟨"a", none, true⟩]) exampleXL emptyState
      "bucket" "" "" "" (-1) (by decide) (by decide),
    C7_maxKeys_clamped (examplePackage [⟨"a", none, true⟩]) exampleXL emptyState
      "bucket" "" "" "" 1001 (by decide) (by decide)⟩

/-! ## Further properties of the merged listing -/

/-- Where the names of `mergedEntries` come from after one disk: they were merged
before, or they are in the disk's processed list. -/
theorem mem_listDirStep {pathJoin : String → String → String}
    {isLeaf : String → String → Bool} {bucket prefixDir prefixEntry : String}
    {mergedEntries : List String} {disk : Option StorageAPI} {name : String}
    (h : name ∈ listDirStep pathJoin isLeaf bucket prefixDir prefixEntry mergedEntries disk) :
    name ∈ mergedEntries ∨
      ∃ l, processedList pathJoin isLeaf bucket prefixDir prefixEntry disk = some l ∧
        name ∈ l := by
  rw [listDirStep_eq] at h
  cases hp : processedList pathJoin isLeaf bucket prefixDir prefixEntry disk with
  | none =>
    rw [hp] at h
    exact Or.inl h
  | some P =>
    rw [hp] at h
    simp only at h
    split at h
    · exact Or.inr ⟨P, rfl, mem_sortStrings.1 h⟩
    · split at h
      · rcases List.mem_append.1 (mem_sortStrings.1 h) with h1 | h1
        · exact Or.inl h1
        · exact Or.inr ⟨P, rfl, (List.mem_filter.1 h1).1⟩
      · exact Or.inl h

theorem mem_foldl_listDirStep (pathJoin : String → String → String)
    (isLeaf : String → String → Bool) (bucket prefixDir prefixEntry : String)
    (disks : List (Option StorageAPI)) (name : String) :
    ∀ mergedEntries : List String,
      name ∈ disks.foldl (listDirStep pathJoin isLeaf bucket prefixDir prefixEntry)
        mergedEntries →
      name ∈ mergedEntries ∨
        ∃ disk ∈ disks, ∃ l,
          processedList pathJoin isLeaf bucket prefixDir prefixEntry disk = some l ∧
            name ∈ l := by
  induction disks with
  | nil => intro m h; exact Or.inl h
  | cons d ds ih =>
    intro m h
    rcases ih _ h with h1 | ⟨disk, hd, l, hl, hn⟩
    · rcases mem_listDirStep h1 with h2 | ⟨l, hl, hn⟩
      · exact Or.inl h2
      · exact Or.inr ⟨d, List.mem_cons_self _ _, l, hl, hn⟩
    · exact Or.inr ⟨disk, List.mem_cons_of_mem _ hd, l, hl, hn⟩

/-- A name of a processed list is a listed name with the prefix `prefixEntry`,
as it is or, for a leaf, without its trailing slash. -/
theorem mem_processEntries {pathJoin : String → String → String}
    {isLeaf : String → String → Bool} {bucket prefixDir prefixEntry : String}
    {entries : List String} {name : String}
    (h : name ∈ processEntries pathJoin isLeaf bucket prefixDir prefixEntry entries) :
    ∃ raw ∈ entries, hasPrefix raw prefixEntry = true ∧
      name = if isLeaf bucket (pathJoin prefixDir raw) then trimSuffix raw slashSeparator
        else raw := by
  unfold processEntries filterMatchingPrefix at h
  rw [mem_sortStrings, List.mem_map] at h
  obtain ⟨raw, hraw, hname⟩ := h
  rw [List.mem_filter, mem_sortStrings] at hraw
  exact ⟨raw, hraw.1, hraw.2, hname.symm⟩

/-- C15.  For every disk set, `isLeaf`, `prefixDir` and `prefixEntry`, the
merged list returned by the `listDir` closure of `listDirHealFactory` is sorted
ascending in the lexicographic order of strings. -/
theorem C15_merged_sorted_ascending (pathJoin : String → String → String)
    (isLeaf : String → String → Bool) (disks : List (Option StorageAPI))
    (bucket prefixDir prefixEntry : String) :
    (listDirHealFactory pathJoin isLeaf disks bucket prefixDir prefixEntry).1.Sorted
      (· ≤ ·) := by
  have h : (listDirHealFactory pathJoin isLeaf disks bucket prefixDir prefixEntry).1.Sorted
      leStr := by
    unfold listDirHealFactory
    exact foldl_listDirStep_sorted pathJoin isLeaf bucket prefixDir prefixEntry disks []
      List.sorted_nil
  exact h.imp (fun {x y} hxy => (leStr_iff x y).1 hxy)

/-- C16.  When every disk of the set is nil or fails its `ListDir`, the `listDir`
closure returns the empty merged list, `delayIsLeaf = false` and a nil error;
and for every disk set whatever, the closure returns `delayIsLeaf = false` and
a nil error. -/
theorem C16_no_error_from_listDir (pathJoin : String → String → String)
    (isLeaf : String → String → Bool) (disks : List (Option StorageAPI))
    (bucket prefixDir prefixEntry : String)
    (hu : ∀ disk ∈ disks, reachable bucket prefixDir disk = false) :
    listDirHealFactory pathJoin isLeaf disks bucket prefixDir prefixEntry =
      ([], false, none) ∧
    ∀ others : List (Option StorageAPI),
      (listDirHealFactory pathJoin isLeaf others bucket prefixDir prefixEntry).2 =
        (false, none) := by
  constructor
  · unfold listDirHealFactory
    rw [foldl_listDirStep_unreachable pathJoin isLeaf bucket prefixDir prefixEntry disks hu]
  · intro others
    rfl

/-- C16 on a set of a nil disk and two failing disks, and for the error on a set
whose last disk fails after one that lists `a`. -/
theorem C16_no_error_from_listDir_witness :
    listDirHealFactory joinWithSlash (fun _ _ => true) [none, diskFailing, diskFailing]
      "bucket" "" "" = ([], false, none) ∧
    (listDirHealFactory joinWithSlash (fun _ _ => true) [diskListing ["a"], diskFailing]
      "bucket" "" "").2 = (false, none) :=
  ⟨(C16_no_error_from_listDir joinWithSlash (fun _ _ => true) [none, diskFailing, diskFailing]
      "bucket" "" "" (by decide)).1,
    (C16_no_error_from_listDir joinWithSlash (fun _ _ => true) [none, diskFailing, diskFailing]
      "bucket" "" "" (by decide)).2 [diskListing ["a"], diskFailing]⟩

/-- C19.  For every disk set, every name of the merged list returned by the
`listDir` closure is in the processed list of a disk of the set that is not nil
and whose `ListDir` succeeded: it is a name `raw` of that disk's listing that
begins with `prefixEntry`, as listed or, when `isLeaf` holds for it, without its
trailing slash. -/
theorem C19_merge_soundness (pathJoin : String → String → String)
    (isLeaf : String → String → Bool) (disks : List (Option StorageAPI))
    (bucket prefixDir prefixEntry : String) (name : String)
    (hname : name ∈ (listDirHealFactory pathJoin isLeaf disks bucket prefixDir
      prefixEntry).1) :
    ∃ (d : StorageAPI) (entries : List String) (raw : String),
      some d ∈ disks ∧
      reachable bucket prefixDir (some d) = true ∧
      d.ListDir bucket prefixDir = .ok entries ∧
      name ∈ processEntries pathJoin isLeaf bucket prefixDir prefixEntry entries ∧
      raw ∈ entries ∧
      hasPrefix raw prefixEntry = true ∧
      name = if isLeaf bucket (pathJoin prefixDir raw) then trimSuffix raw slashSeparator
        else raw := by
  unfold listDirHealFactory at hname
  rcases mem_foldl_listDirStep pathJoin isLeaf bucket prefixDir prefixEntry disks name []
    hname with h | ⟨disk, hd, l, hl, hn⟩
  · simp at h
  · cases disk with
    | none => simp [processedList] at hl
    | some d =>
      unfold processedList at hl
      simp only at hl
      cases hlist : d.ListDir bucket prefixDir with
      | error e => rw [hlist] at hl; simp at hl
      | ok entries =>
        rw [hlist] at hl
        simp only [Option.some.injEq] at hl
        subst hl
        obtain ⟨raw, hraw, hpre, heq⟩ := mem_processEntries hn
        exact ⟨d, entries, raw, hd, by simp [reachable, hlist], hlist, hn, hraw, hpre, heq⟩

/-- C19 for the name `b` merged from disks listing `{a/, x}` and `{b/, c}` with
the prefix `b` and every name a leaf. -/
theorem C19_merge_soundness_witness :
    ∃ (d : StorageAPI) (entries : List String) (raw : String),
      some d ∈ [diskListing ["a/", "x"], diskFailing, diskListing ["b/", "c"]] ∧
      reachable "bucket" "" (some d) = true ∧
      d.ListDir "bucket" "" = .ok entries ∧
      "b" ∈ processEntries joinWithSlash (fun _ _ => true) "bucket" "" "b" entries ∧
      raw ∈ entries ∧
      hasPrefix raw "b" = true ∧
      "b" = if (fun _ _ => true) "bucket" (joinWithSlash "" raw) then
        trimSuffix raw slashSeparator else raw :=
  C19_merge_soundness joinWithSlash (fun _ _ => true)
    [diskListing ["a/", "x"], diskFailing, diskListing ["b/", "c"]] "bucket" "" "b" "b"
    (by decide)

/-! ## Returns from inside the walk loop -/

/-- While the loop goes on and the page has room, the results are read one after
the other. -/
theorem walkLoop_read_through (pkg : Package) (xl : xlObjects) (bucket prefix_ : String)
    (maxKeys : Int) (tail : List treeWalkResult) :
    ∀ (consumed : List treeWalkResult) (i : Int) (acc : List ObjectInfo) (nm : String),
      readsThrough pkg xl bucket consumed = true →
      i + (resolvedInfos pkg xl bucket consumed).length < maxKeys →
      walkLoop pkg xl bucket prefix_ maxKeys (consumed ++ tail) i acc nm =
        walkLoop pkg xl bucket prefix_ maxKeys tail
          (i + (resolvedInfos pkg xl bucket consumed).length)
          (acc ++ resolvedInfos pkg xl bucket consumed)
          (lastNameOr nm (resolvedInfos pkg xl bucket consumed)) := by
  intro consumed
  induction consumed with
  | nil =>
    intro i acc nm _ _
    simp [resolvedInfos, lastNameOr]
  | cons x c ih =>
    intro i acc nm hread hroom
    have hx : goesOn pkg xl bucket x = true := by
      simp only [readsThrough, List.all_cons, Bool.and_eq_true] at hread
      exact hread.1
    have hc : readsThrough pkg xl bucket c = true := by
      simp only [readsThrough, List.all_cons, Bool.and_eq_true] at hread
      exact hread.2
    unfold goesOn at hx
    simp only [Bool.and_eq_true, Option.isNone_iff_eq_none] at hx
    obtain ⟨herr, hgo⟩ := hx
    have hlt : i < maxKeys := by omega
    rw [List.cons_append, walkLoop]
    simp only [hlt, if_true, herr]
    cases hres : resolveEntry pkg xl bucket x.entry with
    | failed e => rw [hres] at hgo; simp at hgo
    | skipped =>
      simp only
      rw [resolvedInfos_cons_skipped _ hres] at hroom ⊢
      exact ih i acc nm hc hroom
    | resolved o =>
      rw [hres] at hgo
      have hend : x.end_ = false := by simpa using hgo
      simp only [hend, Bool.false_eq_true, if_false]
      rw [resolvedInfos_cons_resolved _ hres] at hroom ⊢
      simp only [List.length_cons, Nat.cast_add, Nat.cast_one] at hroom ⊢
      rw [ih (i + 1) (acc ++ [o]) o.Name hc (by omega), lastNameOr_cons]
      have e1 : i + 1 + ((resolvedInfos pkg xl bucket c).length : Int) =
          i + (((resolvedInfos pkg xl bucket c).length : Int) + 1) := by omega
      rw [e1, List.append_assoc]
      rfl

/-- What is known when the function returns from inside the loop: the results
`consumed` were read and the loop went on after each, the page had room, and the
next result `r` carried `errFileNotFound` (nil error), another error, or an
entry whose lookup failed; the `ListObjectsInfo` returned is the zero value. -/
theorem walkLoop_returned (pkg : Package) (xl : xlObjects) (bucket prefix_ : String)
    (maxKeys : Int) :
    ∀ (ch : List treeWalkResult) (i : Int) (acc : List ObjectInfo) (nm : String)
      (result : ListObjectsInfo) (err : Option GoError),
      walkLoop pkg xl bucket prefix_ maxKeys ch i acc nm = .returned result err →
      ∃ consumed r rest,
        ch = consumed ++ r :: rest ∧
        readsThrough pkg xl bucket consumed = true ∧
        i + (resolvedInfos pkg xl bucket consumed).length < maxKeys ∧
        result = {} ∧
        ((r.err = some .errFileNotFound ∧ err = none) ∨
          (∃ e, r.err = some e ∧ e ≠ .errFileNotFound ∧
            err = some (pkg.toObjectErr e bucket prefix_)) ∨
          (r.err = none ∧ ∃ e, resolveEntry pkg xl bucket r.entry = .failed e ∧
            err = some (pkg.toObjectErr e bucket prefix_))) := by
  intro ch
  induction ch with
  | nil =>
    intro i acc nm result err h
    unfold walkLoop at h
    split at h <;> simp at h
  | cons x ch ih =>
    intro i acc nm result err h
    unfold walkLoop at h
    by_cases hlt : i < maxKeys
    · simp only [hlt, if_true] at h
      cases herr : x.err with
      | some e =>
        rw [herr] at h
        simp only at h
        by_cases he : e = GoError.errFileNotFound
        · simp only [he, if_true, LoopExit.returned.injEq] at h
          refine ⟨[], x, ch, rfl, rfl, by simpa [resolvedInfos] using hlt, h.1.symm, ?_⟩
          exact Or.inl ⟨by rw [herr, he], h.2.symm⟩
        · simp only [he, if_false, LoopExit.returned.injEq] at h
          refine ⟨[], x, ch, rfl, rfl, by simpa [resolvedInfos] using hlt, h.1.symm, ?_⟩
          exact Or.inr (Or.inl ⟨e, herr, he, h.2.symm⟩)
      | none =>
        rw [herr] at h
        simp only at h
        cases hres : resolveEntry pkg xl bucket x.entry with
        | skipped =>
          rw [hres] at h
          simp only at h
          obtain ⟨consumed, r, rest, h1, h2, h3, h4, h5⟩ := ih _ _ _ _ _ h
          refine ⟨x :: consumed, r, rest, by rw [h1]; rfl, ?_, ?_, h4, h5⟩
          · simp only [readsThrough, List.all_cons, Bool.and_eq_true]
            exact ⟨by simp [goesOn, herr, hres], h2⟩
          · rw [resolvedInfos_cons_skipped _ hres]; exact h3
        | failed e =>
          rw [hres] at h
          simp only [LoopExit.returned.injEq] at h
          refine ⟨[], x, ch, rfl, rfl, by simpa [resolvedInfos] using hlt, h.1.symm, ?_⟩
          exact Or.inr (Or.inr ⟨herr, e, hres, h.2.symm⟩)
        | resolved o =>
          rw [hres] at h
          simp only at h
          by_cases hend : x.end_ = true
          · simp [hend] at h
          · have hend2 : x.end_ = false := by simpa using hend
            simp only [hend2, Bool.false_eq_true, if_false] at h
            obtain ⟨consumed, r, rest, h1, h2, h3, h4, h5⟩ := ih _ _ _ _ _ h
            refine ⟨x :: consumed, r, rest, by rw [h1]; rfl, ?_, ?_, h4, h5⟩
            · simp only [readsThrough, List.all_cons, Bool.and_eq_true]
              exact ⟨by simp [goesOn, herr, hres, hend2], h2⟩
            · rw [resolvedInfos_cons_resolved _ hres]
              simp only [List.length_cons, Nat.cast_add, Nat.cast_one]
              omega
    · simp [hlt] at h

/-! ## Short cuts and errors of the heal listing -/

/-- C11.  For every request that passes `checkListObjsArgs`, `ListObjectsHeal`
with `maxKeys = 0` returns the zero `ListObjectsInfo` (no objects, no prefixes,
empty `NextMarker`, `IsTruncated = false`) and a nil error, and leaves the state
as it was, whatever the disks and the pool are: no pool entry is released or
stored and no end-walk channel is made, so no walk is started. -/
theorem C11_zero_maxKeys_returns_empty (pkg : Package) (xl : xlObjects) (st : xlState)
    (bucket prefix_ marker delimiter : String)
    (hv : pkg.checkListObjsArgs bucket prefix_ marker delimiter xl = none) :
    ListObjectsHeal pkg xl st bucket prefix_ marker delimiter 0 =
      (({ IsTruncated := false, NextMarker := "", Objects := [], Prefixes := [] }, none),
        st) := by
  unfold ListObjectsHeal
  simp [hv]

/-- C11 on a state with a parked walk of the very request. -/
theorem C11_zero_maxKeys_returns_empty_witness :
    ListObjectsHeal (examplePackage [⟨"a", none, true⟩]) exampleXL
      ⟨[(poolKey "bucket" "" "" "", ⟨[⟨"b", none, true⟩], 0⟩)], 1⟩ "bucket" "" "" "" 0 =
      (({ IsTruncated := false, NextMarker := "", Objects := [], Prefixes := [] }, none),
        ⟨[(poolKey "bucket" "" "" "", ⟨[⟨"b", none, true⟩], 0⟩)], 1⟩) :=
  C11_zero_maxKeys_returns_empty (examplePackage [⟨"a", none, true⟩]) exampleXL
    ⟨[(poolKey "bucket" "" "" "", ⟨[⟨"b", none, true⟩], 0⟩)], 1⟩ "bucket" "" "" "" rfl

/-- C12.  For every request that passes `checkListObjsArgs` with the prefix and
the delimiter both the slash, and every `maxKeys`, `ListObjectsHeal` returns the
zero `ListObjectsInfo` and a nil error, and leaves the state as it was, whatever
the disks and the pool are: no pool access, no walk started. -/
theorem C12_slash_prefix_and_delimiter_returns_empty (pkg : Package) (xl : xlObjects)
    (st : xlState) (bucket marker : String) (maxKeys : Int)
    (hv : pkg.checkListObjsArgs bucket "/" marker "/" xl = none) :
    ListObjectsHeal pkg xl st bucket "/" marker "/" maxKeys =
      (({ IsTruncated := false, NextMarker := "", Objects := [], Prefixes := [] }, none),
        st) := by
  unfold ListObjectsHeal
  simp only [hv]
  by_cases h0 : maxKeys = 0
  · simp [h0]
  · simp [h0, slashSeparator]

/-- C12 with `maxKeys = 5` on a state with a parked walk of the very request. -/
theorem C12_slash_prefix_and_delimiter_returns_empty_witness :
    ListObjectsHeal (examplePackage [⟨"a", none, true⟩]) exampleXL
      ⟨[(poolKey "bucket" "/" "" "/", ⟨[⟨"b", none, true⟩], 0⟩)], 1⟩ "bucket" "/" "" "/" 5 =
      (({ IsTruncated := false, NextMarker := "", Objects := [], Prefixes := [] }, none),
        ⟨[(poolKey "bucket" "/" "" "/", ⟨[⟨"b", none, true⟩], 0⟩)], 1⟩) :=
  C12_slash_prefix_and_delimiter_returns_empty (examplePackage [⟨"a", none, true⟩])
    exampleXL ⟨[(poolKey "bucket" "/" "" "/", ⟨[⟨"b", none, true⟩], 0⟩)], 1⟩ "bucket" "" 5
    rfl

/-- C13.  Whenever `listObjectsHeal` reads a walk result whose error is
`errFileNotFound` (the results `consumed` before it let the loop go on and leave
room in the page), the call returns the zero `ListObjectsInfo` with a nil error,
whatever entries of `consumed` were resolved, and stores nothing; and
`ListObjectsHeal`, for a valid request whose `maxKeys` is clamped to this one,
returns the same empty result and nil error. -/
theorem C13_namespace_not_found_swallowed (pkg : Package) (xl : xlObjects) (st : xlState)
    (bucket prefix_ marker delimiter : String) (maxKeys : Int)
    (consumed : List treeWalkResult) (r : treeWalkResult) (rest : List treeWalkResult)
    (hch : (acquireWalk pkg xl st bucket prefix_ marker delimiter).1.resultCh =
      consumed ++ r :: rest)
    (hread : readsThrough pkg xl bucket consumed = true)
    (hroom : ((resolvedInfos pkg xl bucket consumed).length : Int) < maxKeys)
    (hr : r.err = some .errFileNotFound) :
    listObjectsHeal pkg xl st bucket prefix_ marker delimiter maxKeys =
      (({ IsTruncated := false, NextMarker := "", Objects := [], Prefixes := [] }, none),
        (acquireWalk pkg xl st bucket prefix_ marker delimiter).2) ∧
    ∀ requested : Int,
      pkg.checkListObjsArgs bucket prefix_ marker delimiter xl = none →
      (if requested < 0 ∨ requested > pkg.maxObjectList then pkg.maxObjectList
        else requested) = maxKeys →
      (ListObjectsHeal pkg xl st bucket prefix_ marker delimiter requested).1 =
        ({ IsTruncated := false, NextMarker := "", Objects := [], Prefixes := [] }, none) := by
  have hlt : (0 : Int) + (resolvedInfos pkg xl bucket consumed).length < maxKeys := by omega
  have hloop : walkLoop pkg xl bucket prefix_ maxKeys
      (acquireWalk pkg xl st bucket prefix_ marker delimiter).1.resultCh 0 [] "" =
      .returned {} none := by
    rw [hch, walkLoop_read_through pkg xl bucket prefix_ maxKeys (r :: rest) consumed 0 [] ""
      hread hlt, walkLoop]
    simp [hroom, hr]
  have hcall := listObjectsHeal_of_returned pkg xl st bucket prefix_ marker delimiter maxKeys
    hloop
  refine ⟨hcall, ?_⟩
  intro requested hv hclamp
  unfold ListObjectsHeal
  simp only [hv]
  by_cases h0 : requested = 0
  · simp [h0]
  · by_cases hs : delimiter = slashSeparator ∧ prefix_ = slashSeparator
    · simp [h0, hs]
    · have hclamp2 : (if requested < 0 ∨ requested > pkg.maxObjectList then pkg.maxObjectList
          else requested) = maxKeys := hclamp
      simp only [h0, hs, if_false, hclamp2, hcall]

/-- C13 on a walk that delivers `a` and then a result with `errFileNotFound`. -/
theorem C13_namespace_not_found_swallowed_witness :
    listObjectsHeal
      (examplePackage [⟨"a", none, false⟩, ⟨"", some .errFileNotFound, false⟩, ⟨"z", none, true⟩])
      exampleXL emptyState "bucket" "" "" "" 2 =
      (({ IsTruncated := false, NextMarker := "", Objects := [], Prefixes := [] }, none),
        (acquireWalk
          (examplePackage [⟨"a", none, false⟩, ⟨"", some .errFileNotFound, false⟩,
            ⟨"z", none, true⟩])
          exampleXL emptyState "bucket" "" "" "").2) :=
  (C13_namespace_not_found_swallowed
    (examplePackage [⟨"a", none, false⟩, ⟨"", some .errFileNotFound, false⟩, ⟨"z", none, true⟩])
    exampleXL emptyState "bucket" "" "" "" 2
    [⟨"a", none, false⟩] ⟨"", some .errFileNotFound, false⟩ [⟨"z", none, true⟩]
    rfl (by decide) (by decide) rfl).1

/-! ## Directory entries of the page -/

theorem resolveEntry_of_isDirEntry {pkg : Package} {xl : xlObjects} {bucket : String}
    {r : treeWalkResult} (h : isDirEntry r = true) :
    resolveEntry pkg xl bucket r.entry =
      .resolved { Bucket := bucket, Name := r.entry, IsDir := true } := by
  unfold isDirEntry at h
  simp [resolveEntry, h]

theorem getObjectInfo_of_resolved {pkg : Package} {xl : xlObjects} {bucket : String}
    {r : treeWalkResult} {o : ObjectInfo} (h : isDirEntry r = false)
    (hres : resolveEntry pkg xl bucket r.entry = .resolved o) :
    pkg.getObjectInfo xl bucket r.entry = .ok o := by
  unfold isDirEntry at h
  unfold resolveEntry at hres
  simp only [h, Bool.false_eq_true, if_false] at hres
  cases hg : pkg.getObjectInfo xl bucket r.entry with
  | error e =>
    rw [hg] at hres
    simp only at hres
    split at hres <;> cases hres
  | ok o2 =>
    rw [hg] at hres
    simp only [Resolution.resolved.injEq] at hres
    rw [hres]

/-- The directory names among the resolved entries, against the names read that
end in a slash: the second are among the first, in order, and they are the same
when no lookup reports a directory. -/
theorem dirNames_resolvedInfos (pkg : Package) (xl : xlObjects) (bucket : String)
    (consumed : List treeWalkResult) :
    List.Sublist ((consumed.filter isDirEntry).map fun r => r.entry)
      (((resolvedInfos pkg xl bucket consumed).filter fun o => o.IsDir).map fun o => o.Name) ∧
    ((∀ entry o, pkg.getObjectInfo xl bucket entry = .ok o → o.IsDir = false) →
      ((resolvedInfos pkg xl bucket consumed).filter fun o => o.IsDir).map (fun o => o.Name) =
        (consumed.filter isDirEntry).map fun r => r.entry) := by
  induction consumed with
  | nil => simp [resolvedInfos]
  | cons x c ih =>
    cases hs : isDirEntry x with
    | true =>
      rw [resolvedInfos_cons_resolved _ (resolveEntry_of_isDirEntry hs)]
      simp only [List.filter_cons, hs, if_true, List.map_cons]
      exact ⟨ih.1.cons₂ _, fun hobj => by rw [ih.2 hobj]⟩
    | false =>
      simp only [List.filter_cons, hs, Bool.false_eq_true, if_false]
      cases hres : resolveEntry pkg xl bucket x.entry with
      | skipped =>
        rw [resolvedInfos_cons_skipped _ hres]
        exact ih
      | failed e =>
        have : resolvedInfos pkg xl bucket (x :: c) = resolvedInfos pkg xl bucket c := by
          simp [resolvedInfos, List.filterMap_cons, hres]
        rw [this]
        exact ih
      | resolved o =>
        rw [resolvedInfos_cons_resolved _ hres]
        simp only [List.filter_cons]
        constructor
        · split
          · exact ih.1.cons _
          · exact ih.1
        · intro hobj
          have hd : o.IsDir = false := hobj _ _ (getObjectInfo_of_resolved hs hres)
          simp only [hd, Bool.false_eq_true, if_false]
          exact ih.2 hobj

/-- The resolved entries that are not directories come from the names read that
do not end in a slash. -/
theorem nonDir_resolvedInfos (pkg : Package) (xl : xlObjects) (bucket : String)
    (p : ObjectInfo → Bool) (consumed : List treeWalkResult) :
    (resolvedInfos pkg xl bucket consumed).filter (fun o => !o.IsDir && p o) =
      (resolvedInfos pkg xl bucket (consumed.filter fun r => !isDirEntry r)).filter
        (fun o => !o.IsDir && p o) := by
  induction consumed with
  | nil => simp [resolvedInfos]
  | cons x c ih =>
    cases hs : isDirEntry x with
    | true =>
      rw [resolvedInfos_cons_resolved _ (resolveEntry_of_isDirEntry hs)]
      simp only [List.filter_cons, hs, Bool.not_true, Bool.false_and, Bool.false_eq_true,
        if_false]
      exact ih
    | false =>
      simp only [List.filter_cons, hs, Bool.not_false, if_true]
      cases hres : resolveEntry pkg xl bucket x.entry with
      | skipped =>
        rw [resolvedInfos_cons_skipped _ hres, resolvedInfos_cons_skipped _ hres]
        exact ih
      | failed e =>
        have h1 : ∀ l, resolvedInfos pkg xl bucket (x :: l) = resolvedInfos pkg xl bucket l := by
          intro l
          simp [resolvedInfos, List.filterMap_cons, hres]
        rw [h1, h1]
        exact ih
      | resolved o =>
        rw [resolvedInfos_cons_resolved _ hres, resolvedInfos_cons_resolved _ hres]
        simp only [List.filter_cons]
        rw [ih]

/-- C17, as stated, fails: the walk delivers the directory `d/`, which resolves,
and then a result whose error is `errFileNotFound`; the call succeeds (nil
error) and its prefixes are empty. -/
theorem C17_not_found_result_discards_directories :
    resolveEntry
      (examplePackage [⟨"d/", none, false⟩, ⟨"", some .errFileNotFound, false⟩])
      exampleXL "bucket" "d/" =
      .resolved { Bucket := "bucket", Name := "d/", IsDir := true } ∧
    (listObjectsHeal (examplePackage [⟨"d/", none, false⟩, ⟨"", some .errFileNotFound, false⟩])
      exampleXL emptyState "bucket" "" "" "" 2).1.2 = none ∧
    (listObjectsHeal (examplePackage [⟨"d/", none, false⟩, ⟨"", some .errFileNotFound, false⟩])
      exampleXL emptyState "bucket" "" "" "" 2).1.1.Prefixes = [] := by
  decide

/-- C17 (amended).  For every `listObjectsHeal` call that leaves the walk loop at
its end (it returns no error and read no walk result with an error), with
`consumed` the results read: every name read that ends in a slash resolves,
without a lookup, to `{Bucket = bucket, Name = entry, IsDir = true}`; these
names are in `result.Prefixes`, in walk order, whatever the heal test says of
them; when no lookup reports an object as a directory, `result.Prefixes` is
exactly the sequence of these names; `result.Objects` is built from the names
that do not end in a slash only, and none of its members is a directory. -/
theorem C17_directories_not_heal_filtered (pkg : Package) (xl : xlObjects) (st : xlState)
    (bucket prefix_ marker delimiter : String) (maxKeys : Int)
    (objInfos : List ObjectInfo) (eof : Bool) (nextMarker : String)
    (rest : List treeWalkResult)
    (hloop : walkLoop pkg xl bucket prefix_ maxKeys
      (acquireWalk pkg xl st bucket prefix_ marker delimiter).1.resultCh 0 [] "" =
        .page objInfos eof nextMarker rest) :
    ∃ consumed : List treeWalkResult,
      (acquireWalk pkg xl st bucket prefix_ marker delimiter).1.resultCh = consumed ++ rest ∧
      objInfos = resolvedInfos pkg xl bucket consumed ∧
      (∀ r ∈ consumed, isDirEntry r = true →
        resolveEntry pkg xl bucket r.entry =
          .resolved { Bucket := bucket, Name := r.entry, IsDir := true }) ∧
      List.Sublist ((consumed.filter isDirEntry).map fun r => r.entry)
        (listObjectsHeal pkg xl st bucket prefix_ marker delimiter maxKeys).1.1.Prefixes ∧
      ((∀ entry o, pkg.getObjectInfo xl bucket entry = .ok o → o.IsDir = false) →
        (listObjectsHeal pkg xl st bucket prefix_ marker delimiter maxKeys).1.1.Prefixes =
          (consumed.filter isDirEntry).map fun r => r.entry) ∧
      (listObjectsHeal pkg xl st bucket prefix_ marker delimiter maxKeys).1.1.Objects =
        ((resolvedInfos pkg xl bucket (consumed.filter fun r => !isDirEntry r)).filter
          fun o => !o.IsDir && needsHeal pkg xl bucket o).map (healedInfo pkg xl bucket) ∧
      ∀ o ∈ (listObjectsHeal pkg xl st bucket prefix_ marker delimiter maxKeys).1.1.Objects,
        o.IsDir = false := by
  obtain ⟨consumed, hc1, _, hc3, _⟩ :=
    walkLoop_page pkg xl bucket prefix_ maxKeys _ _ _ _ _ _ _ _ hloop
  simp only [List.nil_append] at hc3
  rw [listObjectsHeal_of_page pkg xl st bucket prefix_ marker delimiter maxKeys hloop,
    foldl_healStep]
  simp only [List.nil_append]
  subst hc3
  refine ⟨consumed, hc1, rfl, fun r _ hr => resolveEntry_of_isDirEntry hr,
    (dirNames_resolvedInfos pkg xl bucket consumed).1,
    (dirNames_resolvedInfos pkg xl bucket consumed).2, ?_, ?_⟩
  · rw [nonDir_resolvedInfos]
  · intro o ho
    rw [List.mem_map] at ho
    obtain ⟨o2, _, rfl⟩ := ho
    rfl

/-- C17 (amended) on a walk of `a`, `d/`, `healthy`, `e/`, `z` with a page of
four entries: the prefixes are `d/` and `e/`. -/
theorem C17_directories_not_heal_filtered_witness :
    ∃ consumed : List treeWalkResult,
      (acquireWalk
        (examplePackage [⟨"a", none, false⟩, ⟨"d/", none, false⟩, ⟨"healthy", none, false⟩,
          ⟨"e/", none, false⟩, ⟨"z", none, true⟩])
        exampleXL emptyState "bucket" "" "" "").1.resultCh =
        consumed ++ [⟨"z", none, true⟩] ∧
      (listObjectsHeal
        (examplePackage [⟨"a", none, false⟩, ⟨"d/", none, false⟩, ⟨"healthy", none, false⟩,
          ⟨"e/", none, false⟩, ⟨"z", none, true⟩])
        exampleXL emptyState "bucket" "" "" "" 4).1.1.Prefixes =
        (consumed.filter isDirEntry).map fun r => r.entry := by
  obtain ⟨consumed, h1, _, _, _, h5, _⟩ := C17_directories_not_heal_filtered
    (examplePackage [⟨"a", none, false⟩, ⟨"d/", none, false⟩, ⟨"healthy", none, false⟩,
      ⟨"e/", none, false⟩, ⟨"z", none, true⟩])
    exampleXL emptyState "bucket" "" "" "" 4
    [{ Bucket := "bucket", Name := "a", ModTime := 7, Size := 1 },
     { Bucket := "bucket", Name := "d/", IsDir := true },
     { Bucket := "bucket", Name := "healthy", ModTime := 7, Size := 1 },
     { Bucket := "bucket", Name := "e/", IsDir := true }]
    false "e/" [⟨"z", none, true⟩] (by decide)
  refine ⟨consumed, h1, h5 ?_⟩
  intro entry o hg
  simp only [examplePackage] at hg
  split at hg
  · cases hg
  · split at hg
    · cases hg
    · simp only [Except.ok.injEq] at hg
      rw [← hg]

/-- C18 (the code departs from the claim).  A new walk delivers `a`, `broken`
and `z`; the lookup of `broken` fails with an error other than not-found, and the
call returns that error from line 130 with `z` still to be delivered: no close
of the channel was seen, no end flag, no error result.  The state left has the
one end-walk channel that was made and an empty pool: the walk is not parked,
and no statement of the function closes `endWalkCh`. -/
theorem C18_walk_dropped_on_lookup_failure :
    acquireWalk
      (examplePackage [⟨"a", none, false⟩, ⟨"broken", none, false⟩, ⟨"z", none, true⟩])
      exampleXL emptyState "bucket" "" "" "" =
      (⟨[⟨"a", none, false⟩, ⟨"broken", none, false⟩, ⟨"z", none, true⟩], 0⟩, ⟨[], 1⟩) ∧
    readsThrough
      (examplePackage [⟨"a", none, false⟩, ⟨"broken", none, false⟩, ⟨"z", none, true⟩])
      exampleXL "bucket" [⟨"a", none, false⟩] = true ∧
    lookupFails
      (examplePackage [⟨"a", none, false⟩, ⟨"broken", none, false⟩, ⟨"z", none, true⟩])
      exampleXL "bucket" "broken" = true ∧
    listObjectsHeal
      (examplePackage [⟨"a", none, false⟩, ⟨"broken", none, false⟩, ⟨"z", none, true⟩])
      exampleXL emptyState "bucket" "" "" "" 5 = (({}, some (.other 5)), ⟨[], 1⟩) ∧
    pooled
      (listObjectsHeal
        (examplePackage [⟨"a", none, false⟩, ⟨"broken", none, false⟩, ⟨"z", none, true⟩])
        exampleXL emptyState "bucket" "" "" "" 5).2
      ⟨[⟨"z", none, true⟩], 0⟩ = false := by
  decide

/-! ## The loop against the description of the entries -/

/-- Lines 115-132 resolve an entry exactly when the description does, and to the
same `ObjectInfo`. -/
theorem resolveEntry_resolved_iff (pkg : Package) (xl : xlObjects) (bucket entry : String)
    (o : ObjectInfo) :
    resolveEntry pkg xl bucket entry = .resolved o ↔ foundInfo pkg xl bucket entry = some o := by
  unfold resolveEntry foundInfo
  cases hs : hasSuffix entry slashSeparator with
  | true =>
    simp only [if_true, Resolution.resolved.injEq, Option.some.injEq]
  | false =>
    simp only [Bool.false_eq_true, if_false]
    cases hg : pkg.getObjectInfo xl bucket entry with
    | ok o2 => simp only [Resolution.resolved.injEq, Option.some.injEq]
    | error e =>
      simp only
      constructor
      · intro h
        split at h <;> cases h
      · intro h
        cases h

theorem foundInfo_eq (pkg : Package) (xl : xlObjects) (bucket entry : String) :
    foundInfo pkg xl bucket entry =
      match resolveEntry pkg xl bucket entry with
      | .resolved o => some o
      | _ => none := by
  cases hres : resolveEntry pkg xl bucket entry with
  | resolved o => exact (resolveEntry_resolved_iff pkg xl bucket entry o).1 hres
  | skipped =>
    cases hf : foundInfo pkg xl bucket entry with
    | none => rfl
    | some o =>
      have := (resolveEntry_resolved_iff pkg xl bucket entry o).2 hf
      rw [hres] at this
      cases this
  | failed e =>
    cases hf : foundInfo pkg xl bucket entry with
    | none => rfl
    | some o =>
      have := (resolveEntry_resolved_iff pkg xl bucket entry o).2 hf
      rw [hres] at this
      cases this

/-- Lines 125-131 abort exactly on a lookup that fails with a cause other than
`errFileNotFound`. -/
theorem lookupFails_eq_lookupAborts (pkg : Package) (xl : xlObjects) (bucket entry : String) :
    lookupFails pkg xl bucket entry = lookupAborts pkg xl bucket entry := by
  unfold lookupFails lookupAborts resolveEntry
  cases hs : hasSuffix entry slashSeparator with
  | true => simp
  | false =>
    simp only [Bool.false_eq_true, if_false, Bool.not_false, Bool.true_and]
    cases hg : pkg.getObjectInfo xl bucket entry with
    | ok o => rfl
    | error e =>
      simp only
      by_cases hc : pkg.errorCause e = GoError.errFileNotFound
      · simp [hc]
      · simp [hc]

theorem lookupAborts_iff (pkg : Package) (xl : xlObjects) (bucket entry : String) :
    lookupAborts pkg xl bucket entry = true ↔
      hasSuffix entry slashSeparator = false ∧
        ∃ err, pkg.getObjectInfo xl bucket entry = .error err ∧
          pkg.errorCause err ≠ .errFileNotFound := by
  unfold lookupAborts
  cases hs : hasSuffix entry slashSeparator with
  | true => simp
  | false =>
    cases hg : pkg.getObjectInfo xl bucket entry with
    | ok o => simp
    | error e => simp

theorem foundInfos_eq_resolvedInfos (pkg : Package) (xl : xlObjects) (bucket : String)
    (results : List treeWalkResult) :
    foundInfos pkg xl bucket results = resolvedInfos pkg xl bucket results := by
  unfold foundInfos resolvedInfos
  congr 1
  funext r
  exact foundInfo_eq pkg xl bucket r.entry

theorem walkPage_eq_firstResolved (pkg : Package) (xl : xlObjects) (bucket : String)
    (maxKeys : Nat) (results : List treeWalkResult) :
    walkPage pkg xl bucket maxKeys results = firstResolved pkg xl bucket maxKeys results := by
  unfold walkPage firstResolved resolvedFlagged
  congr 4
  funext r
  rw [foundInfo_eq]
  cases resolveEntry pkg xl bucket r.entry <;> rfl

theorem continuesAfter_eq_goesOn (pkg : Package) (xl : xlObjects) (bucket : String)
    (r : treeWalkResult) : continuesAfter pkg xl bucket r = goesOn pkg xl bucket r := by
  unfold continuesAfter goesOn
  rw [← lookupFails_eq_lookupAborts, foundInfo_eq]
  unfold lookupFails
  cases resolveEntry pkg xl bucket r.entry <;> cases r.end_ <;> cases r.err.isNone <;> rfl

theorem continuesThrough_eq_readsThrough (pkg : Package) (xl : xlObjects) (bucket : String)
    (consumed : List treeWalkResult) :
    continuesThrough pkg xl bucket consumed = readsThrough pkg xl bucket consumed := by
  unfold continuesThrough readsThrough
  congr 1
  funext r
  exact continuesAfter_eq_goesOn pkg xl bucket r

/-- The walk a call reads when the pool holds none for its key: a new walk over
the `listDir` closure of the disks. -/
theorem acquireWalk_of_no_parked (pkg : Package) (xl : xlObjects) (st : xlState)
    (bucket prefix_ marker delimiter : String)
    (h : st.listPool.lookup (poolKey bucket delimiter marker prefix_) = none) :
    acquireWalk pkg xl st bucket prefix_ marker delimiter =
      (⟨pkg.startTreeWalk bucket prefix_ marker (recursiveOf delimiter)
          (listDirHealFactory pkg.pathJoin (pkg.isObject xl) xl.storageDisks), st.chans⟩,
        { listPool := st.listPool, chans := st.chans + 1 }) := by
  unfold poolKey at h
  unfold acquireWalk treeWalkPool.Release
  simp only [h]

/-- The pool after the walk was obtained is the pool after the release. -/
theorem acquireWalk_listPool (pkg : Package) (xl : xlObjects) (st : xlState)
    (bucket prefix_ marker delimiter : String) :
    (acquireWalk pkg xl st bucket prefix_ marker delimiter).2.listPool =
      (st.listPool.Release (poolKey bucket delimiter marker prefix_)).2 := by
  unfold acquireWalk poolKey
  simp only
  generalize st.listPool.Release ⟨bucket, recursiveOf delimiter, marker, prefix_, true⟩ = rel
  obtain ⟨w, pool⟩ := rel
  cases w <;> rfl

/-! ## The page and the errors of the heal listing -/

/-- C8.  For every `maxKeys >= 1` and every walk without error results on which
no lookup fails with a cause other than not-found, the page of `listObjectsHeal`
is built from exactly the first `maxKeys` walk entries that resolve, in walk
order (all of them up to the end of the walk when it ends first), where a name
ending in a slash resolves to a directory, any other name resolves to the object
`getObjectInfo` finds, and a name whose lookup fails with cause
`errFileNotFound` does not resolve and takes no room in the page; the call
returns no error; its objects and prefixes are drawn from those entries and
together number at most `maxKeys`. -/
theorem C8_page_contents (pkg : Package) (xl : xlObjects) (st : xlState)
    (bucket prefix_ marker delimiter : String) (maxKeys : Int) (hk : 1 ≤ maxKeys)
    (hne : ∀ r ∈ (acquireWalk pkg xl st bucket prefix_ marker delimiter).1.resultCh,
      r.err = none ∧ lookupAborts pkg xl bucket r.entry = false) :
    (∃ eof nextMarker rest,
      walkLoop pkg xl bucket prefix_ maxKeys
        (acquireWalk pkg xl st bucket prefix_ marker delimiter).1.resultCh 0 [] "" =
        .page (walkPage pkg xl bucket maxKeys.toNat
          (acquireWalk pkg xl st bucket prefix_ marker delimiter).1.resultCh)
          eof nextMarker rest) ∧
    (listObjectsHeal pkg xl st bucket prefix_ marker delimiter maxKeys).1.2 = none ∧
    (listObjectsHeal pkg xl st bucket prefix_ marker delimiter maxKeys).1.1.Objects =
      ((walkPage pkg xl bucket maxKeys.toNat
        (acquireWalk pkg xl st bucket prefix_ marker delimiter).1.resultCh).filter
          fun o => !o.IsDir && needsHeal pkg xl bucket o).map (healedInfo pkg xl bucket) ∧
    (listObjectsHeal pkg xl st bucket prefix_ marker delimiter maxKeys).1.1.Prefixes =
      ((walkPage pkg xl bucket maxKeys.toNat
        (acquireWalk pkg xl st bucket prefix_ marker delimiter).1.resultCh).filter
          fun o => o.IsDir).map (fun o => o.Name) ∧
    (((listObjectsHeal pkg xl st bucket prefix_ marker delimiter maxKeys).1.1.Objects.length +
      (listObjectsHeal pkg xl st bucket prefix_ marker delimiter maxKeys).1.1.Prefixes.length
        : Nat) : Int) ≤ maxKeys ∧
    (∀ entry, hasSuffix entry slashSeparator = true →
      resolveEntry pkg xl bucket entry =
        .resolved { Bucket := bucket, Name := entry, IsDir := true }) ∧
    (∀ entry objInfo, hasSuffix entry slashSeparator = false →
      pkg.getObjectInfo xl bucket entry = .ok objInfo →
      resolveEntry pkg xl bucket entry = .resolved objInfo) ∧
    (∀ entry err, hasSuffix entry slashSeparator = false →
      pkg.getObjectInfo xl bucket entry = .error err →
      pkg.errorCause err = .errFileNotFound →
      resolveEntry pkg xl bucket entry = .skipped) := by
  obtain ⟨objInfos, eof, nextMarker, rest, hloop⟩ :=
    walkLoop_no_return pkg xl bucket prefix_ maxKeys _
      (fun r hr => ⟨(hne r hr).1, not_failed_of_lookupFails
        ((lookupFails_eq_lookupAborts pkg xl bucket r.entry).trans (hne r hr).2)⟩) 0 [] ""
  have hfirst := walkLoop_firstResolved pkg xl bucket prefix_ maxKeys _ _ _ _ _ _ _ _ hloop
  simp only [sub_zero, List.nil_append] at hfirst
  rw [← walkPage_eq_firstResolved] at hfirst
  subst hfirst
  have hlen : (walkPage pkg xl bucket maxKeys.toNat
      (acquireWalk pkg xl st bucket prefix_ marker delimiter).1.resultCh).length ≤
      maxKeys.toNat := by
    unfold walkPage
    rw [List.length_map, List.length_take]
    exact Nat.min_le_left _ _
  have hsplit := length_filter_add_le
    (walkPage pkg xl bucket maxKeys.toNat
      (acquireWalk pkg xl st bucket prefix_ marker delimiter).1.resultCh)
    (fun o => !o.IsDir && needsHeal pkg xl bucket o) (fun o => o.IsDir)
    (fun o ho => by
      cases hd : o.IsDir with
      | false => exact hd
      | true => simp [hd] at ho)
  rw [listObjectsHeal_of_page pkg xl st bucket prefix_ marker delimiter maxKeys hloop,
    foldl_healStep]
  refine ⟨⟨eof, nextMarker, rest, hloop⟩, rfl, by simp, by simp, ?_, ?_, ?_, ?_⟩
  · simp only [List.nil_append, List.length_map]
    omega
  · intro entry hs
    simp [resolveEntry, hs]
  · intro entry objInfo hs hg
    simp [resolveEntry, hs, hg]
  · intro entry err hs hg hc
    simp [resolveEntry, hs, hg, hc]

/-- C8 on a walk of `missing`, `a`, `d/`, `z` with `maxKeys = 2`: the page is
built from the found object `a` and the directory `d/`; `missing` takes no room. -/
theorem C8_page_contents_witness :
    (listObjectsHeal
      (examplePackage [⟨"missing", none, false⟩, ⟨"a", none, false⟩, ⟨"d/", none, false⟩,
        ⟨"z", none, true⟩])
      exampleXL emptyState "bucket" "" "" "" 2).1.1.Objects =
      [{ Name := "a", ModTime := 7, Size := 1, IsDir := false,
         HealObjectInfo := some ⟨false, 1, 0, true⟩ }] ∧
    (listObjectsHeal
      (examplePackage [⟨"missing", none, false⟩, ⟨"a", none, false⟩, ⟨"d/", none, false⟩,
        ⟨"z", none, true⟩])
      exampleXL emptyState "bucket" "" "" "" 2).1.1.Prefixes = ["d/"] ∧
    walkLoop
      (examplePackage [⟨"missing", none, false⟩, ⟨"a", none, false⟩, ⟨"d/", none, false⟩,
        ⟨"z", none, true⟩])
      exampleXL "bucket" "" 2
      [⟨"missing", none, false⟩, ⟨"a", none, false⟩, ⟨"d/", none, false⟩, ⟨"z", none, true⟩]
      0 [] "" =
      .page
        [{ Bucket := "bucket", Name := "a", ModTime := 7, Size := 1 },
         { Bucket := "bucket", Name := "d/", IsDir := true }]
        false "d/" [⟨"z", none, true⟩] :=
  ⟨(C8_page_contents
      (examplePackage [⟨"missing", none, false⟩, ⟨"a", none, false⟩, ⟨"d/", none, false⟩,
        ⟨"z", none, true⟩])
      exampleXL emptyState "bucket" "" "" "" 2 (by decide) (by decide)).2.2.1.trans (by decide),
    (C8_page_contents
      (examplePackage [⟨"missing", none, false⟩, ⟨"a", none, false⟩, ⟨"d/", none, false⟩,
        ⟨"z", none, true⟩])
      exampleXL emptyState "bucket" "" "" "" 2 (by decide) (by decide)).2.2.2.1.trans
      (by decide),
    by decide⟩

/-- C14.  `listObjectsHeal` returns a non-nil error if and only if, reading on
after each earlier result and with room left in the page, it reads a walk result
whose error is not `errFileNotFound`, or a result without error whose name does
not end in a slash and for which `getObjectInfo` fails with a cause other than
`errFileNotFound`; then the `ListObjectsInfo` returned is the zero value and the
state is the one after the walk was obtained, nothing being stored in the pool.
A walk without error results on which lookups at most fail with not-found gives
a nil error, whatever the disks are; and the walk started when none is parked
runs over the `listDir` closure of the disks, which returns a nil error for
every directory whichever disks fail. -/
theorem C14_errors_iff (pkg : Package) (xl : xlObjects) (st : xlState)
    (bucket prefix_ marker delimiter : String) (maxKeys : Int) :
    ((listObjectsHeal pkg xl st bucket prefix_ marker delimiter maxKeys).1.2 ≠ none ↔
      ∃ consumed r rest,
        (acquireWalk pkg xl st bucket prefix_ marker delimiter).1.resultCh =
          consumed ++ r :: rest ∧
        continuesThrough pkg xl bucket consumed = true ∧
        ((foundInfos pkg xl bucket consumed).length : Int) < maxKeys ∧
        ((∃ e, r.err = some e ∧ e ≠ .errFileNotFound) ∨
          (r.err = none ∧ hasSuffix r.entry slashSeparator = false ∧
            ∃ e, pkg.getObjectInfo xl bucket r.entry = .error e ∧
              pkg.errorCause e ≠ .errFileNotFound))) ∧
    ((listObjectsHeal pkg xl st bucket prefix_ marker delimiter maxKeys).1.2 ≠ none →
      (listObjectsHeal pkg xl st bucket prefix_ marker delimiter maxKeys).1.1 = {} ∧
      (listObjectsHeal pkg xl st bucket prefix_ marker delimiter maxKeys).2 =
        (acquireWalk pkg xl st bucket prefix_ marker delimiter).2 ∧
      (listObjectsHeal pkg xl st bucket prefix_ marker delimiter maxKeys).2.listPool =
        (st.listPool.Release (poolKey bucket delimiter marker prefix_)).2) ∧
    ((∀ r ∈ (acquireWalk pkg xl st bucket prefix_ marker delimiter).1.resultCh,
        r.err = none ∧ lookupAborts pkg xl bucket r.entry = false) →
      (listObjectsHeal pkg xl st bucket prefix_ marker delimiter maxKeys).1.2 = none) ∧
    (st.listPool.lookup (poolKey bucket delimiter marker prefix_) = none →
      (acquireWalk pkg xl st bucket prefix_ marker delimiter).1.resultCh =
        pkg.startTreeWalk bucket prefix_ marker (recursiveOf delimiter)
          (listDirHealFactory pkg.pathJoin (pkg.isObject xl) xl.storageDisks)) ∧
    (∀ dirBucket prefixDir prefixEntry,
      (listDirHealFactory pkg.pathJoin (pkg.isObject xl) xl.storageDisks dirBucket prefixDir
        prefixEntry).2.2 = none) := by
  refine ⟨⟨?_, ?_⟩, ?_, ?_, ?_, fun _ _ _ => rfl⟩
  · intro herr
    cases hloop : walkLoop pkg xl bucket prefix_ maxKeys
        (acquireWalk pkg xl st bucket prefix_ marker delimiter).1.resultCh 0 [] "" with
    | page objInfos eof nextMarker rest =>
      rw [listObjectsHeal_of_page pkg xl st bucket prefix_ marker delimiter maxKeys hloop]
        at herr
      exact absurd rfl herr
    | returned result err =>
      rw [listObjectsHeal_of_returned pkg xl st bucket prefix_ marker delimiter maxKeys hloop]
        at herr
      obtain ⟨consumed, r, rest, h1, h2, h3, _, h5⟩ :=
        walkLoop_returned pkg xl bucket prefix_ maxKeys _ _ _ _ _ _ hloop
      refine ⟨consumed, r, rest, h1, ?_, ?_, ?_⟩
      · rw [continuesThrough_eq_readsThrough]; exact h2
      · rw [foundInfos_eq_resolvedInfos]; omega
      · rcases h5 with ⟨_, he⟩ | ⟨e, hr, hne, _⟩ | ⟨hr, e, hres, _⟩
        · exact absurd he herr
        · exact Or.inl ⟨e, hr, hne⟩
        · have hf : lookupAborts pkg xl bucket r.entry = true := by
            rw [← lookupFails_eq_lookupAborts]
            simp [lookupFails, hres]
          exact Or.inr ⟨hr, (lookupAborts_iff pkg xl bucket r.entry).1 hf⟩
  · rintro ⟨consumed, r, rest, hch, hread, hroom, hr⟩
    rw [continuesThrough_eq_readsThrough] at hread
    rw [foundInfos_eq_resolvedInfos] at hroom
    have hlt : (0 : Int) + (resolvedInfos pkg xl bucket consumed).length < maxKeys := by omega
    have hloop : ∃ e, walkLoop pkg xl bucket prefix_ maxKeys
        (acquireWalk pkg xl st bucket prefix_ marker delimiter).1.resultCh 0 [] "" =
        .returned {} (some e) := by
      rw [hch, walkLoop_read_through pkg xl bucket prefix_ maxKeys (r :: rest) consumed 0 [] ""
        hread hlt, walkLoop]
      simp only [hlt, if_true]
      rcases hr with ⟨e, hre, hne⟩ | ⟨hre, hs, e, hg, hc⟩
      · exact ⟨pkg.toObjectErr e bucket prefix_, by simp [hre, hne]⟩
      · have hfail : lookupFails pkg xl bucket r.entry = true := by
          rw [lookupFails_eq_lookupAborts]
          exact (lookupAborts_iff pkg xl bucket r.entry).2 ⟨hs, e, hg, hc⟩
        cases hres : resolveEntry pkg xl bucket r.entry with
        | resolved o => simp [lookupFails, hres] at hfail
        | skipped => simp [lookupFails, hres] at hfail
        | failed e2 => exact ⟨pkg.toObjectErr e2 bucket prefix_, by simp [hre]⟩
    obtain ⟨e, hloop⟩ := hloop
    rw [listObjectsHeal_of_returned pkg xl st bucket prefix_ marker delimiter maxKeys hloop]
    simp
  · intro herr
    cases hloop : walkLoop pkg xl bucket prefix_ maxKeys
        (acquireWalk pkg xl st bucket prefix_ marker delimiter).1.resultCh 0 [] "" with
    | page objInfos eof nextMarker rest =>
      rw [listObjectsHeal_of_page pkg xl st bucket prefix_ marker delimiter maxKeys hloop]
        at herr
      exact absurd rfl herr
    | returned result err =>
      rw [listObjectsHeal_of_returned pkg xl st bucket prefix_ marker delimiter maxKeys hloop]
      exact ⟨walkLoop_returned_empty pkg xl bucket prefix_ maxKeys _ _ _ _ _ _ hloop, rfl,
        acquireWalk_listPool pkg xl st bucket prefix_ marker delimiter⟩
  · intro hne
    obtain ⟨objInfos, eof, nextMarker, rest, hloop⟩ :=
      walkLoop_no_return pkg xl bucket prefix_ maxKeys _
        (fun r hr => ⟨(hne r hr).1, not_failed_of_lookupFails
          ((lookupFails_eq_lookupAborts pkg xl bucket r.entry).trans (hne r hr).2)⟩) 0 [] ""
    rw [listObjectsHeal_of_page pkg xl st bucket prefix_ marker delimiter maxKeys hloop]
  · intro hnone
    rw [acquireWalk_of_no_parked pkg xl st bucket prefix_ marker delimiter hnone]

/-- C14 on three walks.  After the found object `a`, the lookup of `broken`
fails with another cause than not-found: the error is returned, with the zero
result and an empty pool.  A walk result carrying an error other than
`errFileNotFound` gives an error as well.  With every disk failing or nil and the
entry `missing` not found, the error is nil and the object `a` is listed. -/
theorem C14_errors_iff_witness :
    (listObjectsHeal
      (examplePackage [⟨"a", none, false⟩, ⟨"broken", none, false⟩, ⟨"z", none, true⟩])
      exampleXL emptyState "bucket" "" "" "" 5).1.2 ≠ none ∧
    listObjectsHeal
      (examplePackage [⟨"a", none, false⟩, ⟨"broken", none, false⟩, ⟨"z", none, true⟩])
      exampleXL emptyState "bucket" "" "" "" 5 = (({}, some (.other 5)), ⟨[], 1⟩) ∧
    (listObjectsHeal
      (examplePackage [⟨"d/", none, false⟩, ⟨"", some (.other 9), false⟩])
      exampleXL emptyState "bucket" "" "" "" 5).1.2 ≠ none ∧
    (listObjectsHeal
      (examplePackage [⟨"missing", none, false⟩, ⟨"a", none, true⟩])
      failingXL emptyState "bucket" "" "" "" 5).1.2 = none ∧
    (listObjectsHeal
      (examplePackage [⟨"missing", none, false⟩, ⟨"a", none, true⟩])
      failingXL emptyState "bucket" "" "" "" 5).1.1.Objects.map (fun o => o.Name) = ["a"] :=
  ⟨(C14_errors_iff
      (examplePackage [⟨"a", none, false⟩, ⟨"broken", none, false⟩, ⟨"z", none, true⟩])
      exampleXL emptyState "bucket" "" "" "" 5).1.2
      ⟨[⟨"a", none, false⟩], ⟨"broken", none, false⟩, [⟨"z", none, true⟩], rfl, by decide,
        by decide, Or.inr ⟨rfl, by decide, .other 5, rfl, by decide⟩⟩,
    by decide,
    (C14_errors_iff
      (examplePackage [⟨"d/", none, false⟩, ⟨"", some (.other 9), false⟩])
      exampleXL emptyState "bucket" "" "" "" 5).1.2
      ⟨[⟨"d/", none, false⟩], ⟨"", some (.other 9), false⟩, [], rfl, by decide,
        by decide, Or.inl ⟨.other 9, rfl, by decide⟩⟩,
    (C14_errors_iff
      (examplePackage [⟨"missing", none, false⟩, ⟨"a", none, true⟩])
      failingXL emptyState "bucket" "" "" "" 5).2.2.1 (by decide),
    by decide⟩

end Minio
